import Mathlib

/-!
Shallow embedding of the credit-system repository (wallets, credit-transaction
ledger, and the reserve / commit / reverse / top-up / sweep services, plus the
`charge_one_credit` request decorator).

The relational store is modelled as an explicit `State`: a list of wallet rows,
a list of ledger rows, and the next auto-increment primary key.  Each Django
`transaction.atomic()` block becomes a pure function `State → Except CreditError
(CreditTransaction × State)`: a returned `.error` means the transaction aborted
and no state change is visible (transactional rollback).  Machine integers (the
`BigIntegerField` balance and delta columns, timestamps) are modelled as `Int`.
-/

namespace CreditSystem

/-- `TxStatus` text choices from `credits/enums.py`. -/
inductive TxStatus where
  | pending
  | committed
  | reversed
deriving DecidableEq, Repr

/-- `TxType` text choices from `credits/enums.py`. -/
inductive TxType where
  | debit
  | credit
  | refund
deriving DecidableEq, Repr

/-- A row of the `CreditTransaction` ledger table (`credits/models.py`). -/
structure CreditTransaction where
  id : Nat
  walletId : Nat
  delta : Int
  txType : TxType
  txStatus : TxStatus
  idempotencyKey : Option String
  requestId : Option String
  note : String
  createdAt : Int
deriving DecidableEq, Repr

/-- A row of the `Wallet` table (`credits/models.py`); `name`/`updated_at`
are irrelevant to the services and omitted. -/
structure Wallet where
  id : Nat
  balance : Int
deriving DecidableEq, Repr

/-- The database state: wallet rows, ledger rows (in insertion order, ids
taken from the auto-increment counter `nextId`). -/
structure State where
  wallets : List Wallet
  txs : List CreditTransaction
  nextId : Nat
deriving DecidableEq, Repr

/-- Errors raised by the services: `ValueError` for a non-positive amount
(the spec's `InvalidAmount`), `InsufficientCredits`, and `DoesNotExist`
from `objects.get(pk=...)` (the spec's `NotFound`). -/
inductive CreditError where
  | invalidAmount
  | insufficientCredits
  | notFound
deriving DecidableEq, Repr

/-- Python truthiness of the `Optional[str]` idempotency key: `None` and the
empty string are falsy (`if idempotency_key:` in `ReserveCreditsService`). -/
def keyTruthy : Option String → Bool
  | none => false
  | some k => decide (k ≠ "")

/-- `ReserveCreditsService._tx_defaults` plus the generated primary key and
`created_at = timezone.now()`: the PENDING DEBIT ledger row inserted by a
reservation. -/
def txDefaults (walletId : Nat) (amount : Int) (requestId : Option String)
    (note : String) (idempotencyKey : Option String) (id : Nat) (now : Int) :
    CreditTransaction :=
  { id := id
    walletId := walletId
    delta := -amount
    txType := TxType.debit
    txStatus := TxStatus.pending
    idempotencyKey := idempotencyKey
    requestId := requestId
    note := note
    createdAt := now }

/-- `ReserveCreditsService._conditional_decrement`:
`Wallet.objects.filter(id=wallet_id, balance__gte=amount).update(balance=F("balance") - amount)`.
Returns the updated state and the number of rows affected. -/
def conditionalDecrement (s : State) (walletId : Nat) (amount : Int) :
    State × Nat :=
  ({ s with wallets := s.wallets.map (fun w =>
      if w.id = walletId ∧ amount ≤ w.balance then
        { w with balance := w.balance - amount }
      else w) },
   (s.wallets.filter (fun w => decide (w.id = walletId ∧ amount ≤ w.balance))).length)

/-- Tail of `ReserveCreditsService.__call__` after the ledger row was created:
run the conditional decrement; zero rows affected raises `InsufficientCredits`,
which aborts the atomic block (so the caller keeps the pre-transaction state). -/
def reserveAfterInsert (tx : CreditTransaction) (s : State) (walletId : Nat)
    (amount : Int) : Except CreditError (CreditTransaction × State) :=
  let dec := conditionalDecrement s walletId amount
  if dec.2 = 0 then Except.error CreditError.insufficientCredits
  else Except.ok (tx, dec.1)

/-- `ReserveCreditsService.__call__` from `credits/services/reserve_credits.py`.
With a truthy idempotency key, `get_or_create` on `(wallet_id, idempotency_key)`
either finds the existing row (idempotent hit: return it, no decrement) or
inserts the PENDING DEBIT; without one, `_create_tx` inserts unconditionally
(leaving the row's `idempotency_key` NULL).  The creator then performs the
conditional decrement. -/
def reserve (s : State) (walletId : Nat) (amount : Int)
    (idempotencyKey : Option String) (requestId : Option String)
    (note : String) (now : Int) :
    Except CreditError (CreditTransaction × State) :=
  if amount ≤ 0 then Except.error CreditError.invalidAmount
  else if keyTruthy idempotencyKey then
    match s.txs.find? (fun t =>
        decide (t.walletId = walletId ∧ t.idempotencyKey = idempotencyKey)) with
    | some tx => Except.ok (tx, s)
    | none =>
      let tx := txDefaults walletId amount requestId note idempotencyKey
        s.nextId now
      reserveAfterInsert tx
        { s with txs := s.txs ++ [tx], nextId := s.nextId + 1 } walletId amount
  else
    let tx := txDefaults walletId amount requestId note none s.nextId now
    reserveAfterInsert tx
      { s with txs := s.txs ++ [tx], nextId := s.nextId + 1 } walletId amount

/-- `commit_reservation` from `credits/services/commit_reservation.py`: lock
the row; if it is no longer PENDING return it unchanged; otherwise set
`tx_status = COMMITTED` and save only that column. -/
def commit_reservation (s : State) (txId : Nat) :
    Except CreditError (CreditTransaction × State) :=
  match s.txs.find? (fun t => decide (t.id = txId)) with
  | none => Except.error CreditError.notFound
  | some pending =>
    if pending.txStatus ≠ TxStatus.pending then Except.ok (pending, s)
    else
      Except.ok ({ pending with txStatus := TxStatus.committed },
        { s with txs := s.txs.map (fun t =>
            if t.id = txId then { t with txStatus := TxStatus.committed }
            else t) })

/-- The COMMITTED REFUND row inserted by `reverse_reservation`
(`note = f"refund of tx {curr.id}: {reason}"`). -/
def refundRow (curr : CreditTransaction) (reason : String) (id : Nat)
    (now : Int) : CreditTransaction :=
  { id := id
    walletId := curr.walletId
    delta := -curr.delta
    txType := TxType.refund
    txStatus := TxStatus.committed
    idempotencyKey := none
    requestId := none
    note := "refund of tx " ++ toString curr.id ++ ": " ++ reason
    createdAt := now }

/-- `reverse_reservation` from `credits/services/reverse_reservation.py`: lock
the row; non-PENDING rows are returned unchanged; otherwise mark it REVERSED
with `note = reason` (saving only those two columns), restore the wallet with
`balance = balance + (-delta)`, and insert the COMMITTED REFUND row. -/
def reverse_reservation (s : State) (txId : Nat) (reason : String) (now : Int) :
    Except CreditError (CreditTransaction × State) :=
  match s.txs.find? (fun t => decide (t.id = txId)) with
  | none => Except.error CreditError.notFound
  | some curr =>
    if curr.txStatus ≠ TxStatus.pending then Except.ok (curr, s)
    else
      Except.ok ({ curr with txStatus := TxStatus.reversed, note := reason },
        { s with
          txs := s.txs.map (fun t =>
              if t.id = txId then
                { t with txStatus := TxStatus.reversed, note := reason }
              else t) ++ [refundRow curr reason s.nextId now]
          wallets := s.wallets.map (fun w =>
              if w.id = curr.walletId then
                { w with balance := w.balance + (-curr.delta) }
              else w)
          nextId := s.nextId + 1 })

/-- `top_up` from `credits/services/top_up.py`: validate `amount > 0`, add the
amount to the wallet balance, and insert a COMMITTED CREDIT row.  The caller
passes an existing `Wallet` instance; the foreign-key constraint of the ledger
insert is modelled by the existence check. -/
def top_up (s : State) (walletId : Nat) (amount : Int) (note : String)
    (now : Int) : Except CreditError (CreditTransaction × State) :=
  if amount ≤ 0 then Except.error CreditError.invalidAmount
  else if (s.wallets.find? (fun w => decide (w.id = walletId))).isNone then
    Except.error CreditError.notFound
  else
    let tx : CreditTransaction :=
      { id := s.nextId
        walletId := walletId
        delta := amount
        txType := TxType.credit
        txStatus := TxStatus.committed
        idempotencyKey := none
        requestId := none
        note := note
        createdAt := now }
    Except.ok (tx,
      { s with
        wallets := s.wallets.map (fun w =>
            if w.id = walletId then { w with balance := w.balance + amount }
            else w)
        txs := s.txs ++ [tx]
        nextId := s.nextId + 1 })

/-- The filter of the sweeper's query:
`tx_status=TxStatus.PENDING, created_at__lt=cutoff`. -/
def staleP (cutoff : Int) (t : CreditTransaction) : Bool :=
  decide (t.txStatus = TxStatus.pending ∧ t.createdAt < cutoff)

/-- Insert a row into an id-sorted list (helper for `order_by("id")`). -/
def insertById (t : CreditTransaction) : List CreditTransaction →
    List CreditTransaction
  | [] => [t]
  | x :: xs => if t.id ≤ x.id then t :: x :: xs else x :: insertById t xs

/-- Sort ledger rows by primary key, as the sweeper's `order_by("id")` does. -/
def sortById (l : List CreditTransaction) : List CreditTransaction :=
  l.foldr insertById []

/-- One batch of the sweeper's scan: stale PENDING rows ordered by id,
capped at `chunk_size`. -/
def staleBatch (s : State) (cutoff : Int) (chunk : Nat) :
    List CreditTransaction :=
  (sortById (s.txs.filter (staleP cutoff))).take chunk

/-- `reverse_reservation(tx, reason="expired")` as a state transformer (inside
the sweep the row always exists, so the error branch is unreachable). -/
def reverseOne (now : Int) (s : State) (txId : Nat) : State :=
  match reverse_reservation s txId "expired" now with
  | Except.ok (_, s2) => s2
  | Except.error _ => s

/-- The sweeper's inner `for tx in batch: reverse_reservation(tx, "expired")`. -/
def reverseBatch (now : Int) (s : State) (batch : List CreditTransaction) :
    State :=
  batch.foldl (fun st t => reverseOne now st t.id) s

/-- The sweeper's `while True` loop, written with explicit fuel.  Reversing a
PENDING row strictly shrinks the stale set, so any fuel of at least
`s.txs.length + 1` reaches the empty-batch exit exactly as the source loop
does. -/
def sweepLoop (now cutoff : Int) (chunk : Nat) :
    Nat → State → Nat → State × Nat
  | 0, s, total => (s, total)
  | Nat.succ fuel, s, total =>
    let batch := staleBatch s cutoff chunk
    if batch.isEmpty then (s, total)
    else sweepLoop now cutoff chunk fuel (reverseBatch now s batch)
      (total + batch.length)

/-- `sweep_stale_reservations` from
`credits/services/sweep_stale_reservations.py`: `cutoff = now - ttl`; scan and
reverse in chunks until a scan returns an empty batch; return the total number
of rows reversed. -/
def sweep_stale_reservations (s : State) (now : Int) (ttl : Int)
    (chunk : Nat) : State × Nat :=
  sweepLoop now (now - ttl) chunk (s.txs.length + 1) s 0

/-! ### The `charge_one_credit` request decorator (`credits/decorators.py`) -/

/-- How the wrapped view exits: a response carrying `status_code`, or an
uncaught exception. -/
inductive HandlerResult where
  | response (code : Nat)
  | exception
deriving DecidableEq, Repr

/-- The terminal ledger action the wrapper performed on the reservation. -/
inductive ChargeAction where
  | didCommit (txId : Nat)
  | didReverse (txId : Nat) (reason : String)
deriving DecidableEq, Repr

/-- What the wrapper hands back to the framework: the 401/402 early returns,
the handler's own response (returned verbatim), or a re-raised exception. -/
inductive ChargeOutcome where
  | unauthorized
  | paymentRequired
  | response (code : Nat)
  | raised
  | uncaught (e : CreditError)
deriving DecidableEq, Repr

/-- Result of one pass through the decorator: outcome, final database state,
and the terminal commit/reverse action applied to the reservation (if any). -/
structure ChargeResult where
  outcome : ChargeOutcome
  state : State
  action : Option ChargeAction
deriving DecidableEq, Repr

/-- `charge_one_credit` from `credits/decorators.py`: resolve the wallet (401
if absent), reserve one credit (402 on `InsufficientCredits`), run the
handler; commit on `200 <= status_code < 400`, reverse with reason
`"http <code>"` on any other status, reverse with reason `"exception"` and
re-raise when the handler raises.  The handler is modelled by its exit
(`HandlerResult`); `request_id = str(uuid.uuid4())` is a parameter. -/
def charge_one_credit (s : State) (walletId : Option Nat)
    (idem : Option String) (requestId : Option String) (now : Int)
    (handler : HandlerResult) : ChargeResult :=
  match walletId with
  | none => ⟨ChargeOutcome.unauthorized, s, none⟩
  | some wid =>
    match reserve s wid 1 idem requestId "api-request" now with
    | Except.error CreditError.insufficientCredits =>
      ⟨ChargeOutcome.paymentRequired, s, none⟩
    | Except.error e => ⟨ChargeOutcome.uncaught e, s, none⟩
    | Except.ok (tx, s1) =>
      match handler with
      | HandlerResult.exception =>
        let s2 := match reverse_reservation s1 tx.id "exception" now with
          | Except.ok (_, s2) => s2
          | Except.error _ => s1
        ⟨ChargeOutcome.raised, s2, some (ChargeAction.didReverse tx.id "exception")⟩
      | HandlerResult.response code =>
        if 200 ≤ code ∧ code < 400 then
          let s2 := match commit_reservation s1 tx.id with
            | Except.ok (_, s2) => s2
            | Except.error _ => s1
          ⟨ChargeOutcome.response code, s2, some (ChargeAction.didCommit tx.id)⟩
        else
          let reason := "http " ++ toString code
          let s2 := match reverse_reservation s1 tx.id reason now with
            | Except.ok (_, s2) => s2
            | Except.error _ => s1
          ⟨ChargeOutcome.response code, s2,
            some (ChargeAction.didReverse tx.id reason)⟩

/-! ### Operation sequences over the store

An `Op` is one call to one of the five services; `applyOp` runs it, keeping
the pre-transaction state when the service raises (transactional rollback).
This is the trace model for the spec's "for all traces" invariants. -/

/-- One service call. -/
inductive Op where
  | reserveOp (walletId : Nat) (amount : Int) (idempotencyKey : Option String)
      (requestId : Option String) (note : String) (now : Int)
  | commitOp (txId : Nat)
  | reverseOp (txId : Nat) (reason : String) (now : Int)
  | topUpOp (walletId : Nat) (amount : Int) (note : String) (now : Int)
  | sweepOp (now : Int) (ttl : Int) (chunk : Nat)
deriving DecidableEq, Repr

/-- Run one service call; a raised error leaves the committed state as it
was (the atomic block rolls back). -/
def applyOp (s : State) : Op → State
  | Op.reserveOp wid amount key reqId note now =>
    match reserve s wid amount key reqId note now with
    | Except.ok (_, s2) => s2
    | Except.error _ => s
  | Op.commitOp txId =>
    match commit_reservation s txId with
    | Except.ok (_, s2) => s2
    | Except.error _ => s
  | Op.reverseOp txId reason now =>
    match reverse_reservation s txId reason now with
    | Except.ok (_, s2) => s2
    | Except.error _ => s
  | Op.topUpOp wid amount note now =>
    match top_up s wid amount note now with
    | Except.ok (_, s2) => s2
    | Except.error _ => s
  | Op.sweepOp now ttl chunk => (sweep_stale_reservations s now ttl chunk).1

/-- Run a sequence of service calls. -/
def applyOps (s : State) (ops : List Op) : State := ops.foldl applyOp s

/-! ### Observers used by the theorems -/

/-- Total balance held by the wallet rows with primary key `wid` (with unique
ids this is that wallet's balance, and `0` if the wallet does not exist). -/
def walletSum (ws : List Wallet) (wid : Nat) : Int :=
  (ws.map (fun w => if w.id = wid then w.balance else 0)).sum

/-- Sum of a per-row measure `f` over the ledger rows of wallet `wid`. -/
def txSum (ts : List CreditTransaction) (wid : Nat)
    (f : CreditTransaction → Int) : Int :=
  (ts.map (fun t => if t.walletId = wid then f t else 0)).sum

/-- Per-row contribution to the spec's §8 conservation quantity, read off the
spec's words: `+|delta|` for PENDING and COMMITTED DEBITs, `−|delta|` for
CREDITs and REFUNDs — a REVERSED DEBIT contributes nothing. -/
def qSpecContrib (t : CreditTransaction) : Int :=
  if t.txType = TxType.debit then
    (if t.txStatus = TxStatus.reversed then 0 else |t.delta|)
  else -|t.delta|

/-- The spec's §8 conservation quantity for wallet `wid`. -/
def qSpecVal (s : State) (wid : Nat) : Int :=
  walletSum s.wallets wid + txSum s.txs wid qSpecContrib

/-- Per-row contribution to the amended conservation quantity: `+|delta|` for
every DEBIT (PENDING, COMMITTED or REVERSED), `−|delta|` for CREDITs and
REFUNDs. -/
def qContrib (t : CreditTransaction) : Int :=
  if t.txType = TxType.debit then |t.delta| else -|t.delta|

/-- The amended conservation quantity for wallet `wid`. -/
def qVal (s : State) (wid : Nat) : Int :=
  walletSum s.wallets wid + txSum s.txs wid qContrib

/-! ### List helpers -/

theorem list_map_id {α : Type} {l : List α} {f : α → α}
    (h : ∀ a ∈ l, f a = a) : l.map f = l := by
  induction l with
  | nil => rfl
  | cons x xs ih =>
    simp only [List.map_cons, h x (List.mem_cons_self x xs)]
    rw [ih (fun a ha => h a (List.mem_cons_of_mem x ha))]

theorem find?_append_left {α : Type} {l l' : List α} {p : α → Bool}
    (h : ∀ a ∈ l, p a = false) : (l ++ l').find? p = l'.find? p := by
  induction l with
  | nil => rfl
  | cons x xs ih =>
    have hx := h x (List.mem_cons_self x xs)
    simp only [List.cons_append, List.find?_cons, hx]
    exact ih (fun a ha => h a (List.mem_cons_of_mem x ha))

theorem filter_map_pointwise {α : Type} {l : List α} {g : α → α}
    {p q : α → Bool}
    (h : ∀ a ∈ l, p (g a) = q a ∧ (q a = true → g a = a)) :
    (l.map g).filter p = l.filter q := by
  induction l with
  | nil => rfl
  | cons x xs ih =>
    have hx := h x (List.mem_cons_self x xs)
    have ihx := ih (fun a ha => h a (List.mem_cons_of_mem x ha))
    simp only [List.map_cons, List.filter_cons, hx.1]
    by_cases hq : q x = true
    · simp [hq, hx.2 hq, ihx]
    · simp [hq, ihx]

theorem filter_congr_mem {α : Type} {l : List α} {p q : α → Bool}
    (h : ∀ a ∈ l, p a = q a) : l.filter p = l.filter q := by
  induction l with
  | nil => rfl
  | cons x xs ih =>
    have hx := h x (List.mem_cons_self x xs)
    have ihx := ih (fun a ha => h a (List.mem_cons_of_mem x ha))
    simp only [List.filter_cons, hx, ihx]

theorem walletIds_map_eq {ws : List Wallet} {f : Wallet → Wallet}
    (h : ∀ w, (f w).id = w.id) :
    (ws.map f).map Wallet.id = ws.map Wallet.id := by
  rw [List.map_map]
  exact List.map_congr_left (fun w _ => h w)

theorem mem_map_self {α : Type} {l : List α} {f : α → α} {a : α}
    (ha : a ∈ l) (hfa : f a = a) : a ∈ l.map f := by
  rw [← hfa]; exact List.mem_map_of_mem f ha

/-! ### Primary-key helpers for the ledger -/

/-- Ledger rows listed in strictly increasing primary-key order (the shape
every reachable state has, since ids come from the auto-increment counter). -/
abbrev TxIdsOrdered (l : List CreditTransaction) : Prop :=
  l.Pairwise (fun a b => a.id < b.id)

theorem eq_of_mem_of_id_eq {l : List CreditTransaction}
    (hord : TxIdsOrdered l) {u v : CreditTransaction}
    (hu : u ∈ l) (hv : v ∈ l) (hid : u.id = v.id) : u = v := by
  induction l with
  | nil => cases hu
  | cons x xs ih =>
    rcases List.pairwise_cons.mp hord with ⟨hx, hxs⟩
    rcases List.mem_cons.mp hu with hux | hux
    · rcases List.mem_cons.mp hv with hvx | hvx
      · rw [hux, hvx]
      · exact absurd hid (by rw [hux]; exact Nat.ne_of_lt (hx v hvx))
    · rcases List.mem_cons.mp hv with hvx | hvx
      · exact absurd hid.symm (by rw [hvx]; exact Nat.ne_of_lt (hx u hux))
      · exact ih hxs hux hvx

theorem find?_id_of_ordered {l : List CreditTransaction}
    (hord : TxIdsOrdered l) {t : CreditTransaction} (ht : t ∈ l) :
    l.find? (fun u => decide (u.id = t.id)) = some t := by
  induction l with
  | nil => cases ht
  | cons x xs ih =>
    rcases List.pairwise_cons.mp hord with ⟨hx, hxs⟩
    rcases List.mem_cons.mp ht with htx | htx
    · subst htx
      rw [List.find?_cons_of_pos _ (by simp)]
    · have hne : x.id ≠ t.id := Nat.ne_of_lt (hx t htx)
      rw [List.find?_cons_of_neg _ (by simpa using hne)]
      exact ih hxs htx

theorem txIds_nodup_of_ordered {l : List CreditTransaction}
    (hord : TxIdsOrdered l) : (l.map CreditTransaction.id).Nodup :=
  List.pairwise_map.mpr (hord.imp fun h => Nat.ne_of_lt h)

/-! ### Sum lemmas -/

theorem walletSum_append (ws ws2 : List Wallet) (wid : Nat) :
    walletSum (ws ++ ws2) wid = walletSum ws wid + walletSum ws2 wid := by
  simp [walletSum, List.sum_append]

theorem txSum_append (l l2 : List CreditTransaction) (wid : Nat)
    (f : CreditTransaction → Int) :
    txSum (l ++ l2) wid f = txSum l wid f + txSum l2 wid f := by
  simp [txSum, List.sum_append]

theorem txSum_singleton (t : CreditTransaction) (wid : Nat)
    (f : CreditTransaction → Int) :
    txSum [t] wid f = if t.walletId = wid then f t else 0 := by
  simp [txSum]

theorem txSum_map_congr {l : List CreditTransaction}
    {g : CreditTransaction → CreditTransaction} {wid : Nat}
    {f : CreditTransaction → Int}
    (h : ∀ t ∈ l, (g t).walletId = t.walletId ∧ f (g t) = f t) :
    txSum (l.map g) wid f = txSum l wid f := by
  induction l with
  | nil => rfl
  | cons x xs ih =>
    have hx := h x (List.mem_cons_self x xs)
    have ihx := ih (fun a ha => h a (List.mem_cons_of_mem x ha))
    simp only [txSum, List.map_cons, List.sum_cons] at ihx ⊢
    rw [hx.1, hx.2, ihx]

theorem walletSum_map_single {ws : List Wallet} {wid : Nat}
    {f : Wallet → Wallet} {w : Wallet} {d : Int}
    (hnd : (ws.map Wallet.id).Nodup)
    (hw : w ∈ ws) (hid : w.id = wid)
    (hfw : f w = { w with balance := w.balance + d })
    (hother : ∀ u ∈ ws, u.id ≠ wid → f u = u) (wid2 : Nat) :
    walletSum (ws.map f) wid2 =
      walletSum ws wid2 + (if wid2 = wid then d else 0) := by
  induction ws with
  | nil => cases hw
  | cons x xs ih =>
    have hx : x.id ∉ xs.map Wallet.id :=
      (List.nodup_cons.mp (show (x.id :: xs.map Wallet.id).Nodup from hnd)).1
    have hxs : (xs.map Wallet.id).Nodup :=
      (List.nodup_cons.mp (show (x.id :: xs.map Wallet.id).Nodup from hnd)).2
    rcases List.mem_cons.mp hw with hwx | hwx
    · subst hwx
      have htail : ∀ u ∈ xs, f u = u := by
        intro u hu
        refine hother u (List.mem_cons_of_mem w hu) ?_
        intro hcontra
        exact hx (by rw [hid, ← hcontra]; exact List.mem_map_of_mem Wallet.id hu)
      simp only [walletSum, List.map_cons, List.sum_cons]
      rw [list_map_id htail, hfw]
      have hfid : ({ w with balance := w.balance + d } : Wallet).id = w.id := rfl
      by_cases hw2 : wid2 = wid
      · rw [if_pos (by rw [hfid, hid, hw2]), if_pos (by rw [hid, hw2]), if_pos hw2]
        ring
      · rw [if_neg (by rw [hfid, hid]; exact fun hc => hw2 hc.symm),
          if_neg (by rw [hid]; exact fun hc => hw2 hc.symm), if_neg hw2]
        ring
    · have hxid : x.id ≠ wid := by
        intro hcontra
        refine hx ?_
        rw [hcontra, ← hid]
        exact List.mem_map_of_mem Wallet.id hwx
      have hfx : f x = x := hother x (List.mem_cons_self x xs) hxid
      have ihx := ih hxs hwx
        (fun u hu hne => hother u (List.mem_cons_of_mem x hu) hne)
      simp only [walletSum, List.map_cons, List.sum_cons] at ihx ⊢
      rw [hfx, ihx]
      ring

theorem wallet_eq_of_id {ws : List Wallet}
    (hnd : (ws.map Wallet.id).Nodup) {u v : Wallet}
    (hu : u ∈ ws) (hv : v ∈ ws) (hid : u.id = v.id) : u = v := by
  induction ws with
  | nil => cases hu
  | cons x xs ih =>
    have hx : x.id ∉ xs.map Wallet.id :=
      (List.nodup_cons.mp (show (x.id :: xs.map Wallet.id).Nodup from hnd)).1
    have hxs : (xs.map Wallet.id).Nodup :=
      (List.nodup_cons.mp (show (x.id :: xs.map Wallet.id).Nodup from hnd)).2
    rcases List.mem_cons.mp hu with hux | hux
    · rcases List.mem_cons.mp hv with hvx | hvx
      · rw [hux, hvx]
      · exfalso
        refine hx ?_
        rw [← hux, hid]
        exact List.mem_map_of_mem Wallet.id hvx
    · rcases List.mem_cons.mp hv with hvx | hvx
      · exfalso
        refine hx ?_
        rw [← hvx, ← hid]
        exact List.mem_map_of_mem Wallet.id hux
      · exact ih hxs hux hvx

theorem walletSum_eq_zero {ws : List Wallet} {wid : Nat}
    (h : ∀ u ∈ ws, u.id ≠ wid) : walletSum ws wid = 0 := by
  induction ws with
  | nil => rfl
  | cons y ys ihy =>
    simp only [walletSum, List.map_cons, List.sum_cons]
    rw [if_neg (h y (List.mem_cons_self y ys))]
    have := ihy (fun u hu => h u (List.mem_cons_of_mem y hu))
    simp only [walletSum] at this
    rw [this]
    ring

theorem walletSum_eq_balance {ws : List Wallet} {w : Wallet} {wid : Nat}
    (hnd : (ws.map Wallet.id).Nodup) (hw : w ∈ ws) (hid : w.id = wid) :
    walletSum ws wid = w.balance := by
  induction ws with
  | nil => cases hw
  | cons x xs ih =>
    have hx : x.id ∉ xs.map Wallet.id :=
      (List.nodup_cons.mp (show (x.id :: xs.map Wallet.id).Nodup from hnd)).1
    have hxs : (xs.map Wallet.id).Nodup :=
      (List.nodup_cons.mp (show (x.id :: xs.map Wallet.id).Nodup from hnd)).2
    rcases List.mem_cons.mp hw with hwx | hwx
    · subst hwx
      have htail : ∀ u ∈ xs, u.id ≠ wid := by
        intro u hu hc
        refine hx ?_
        rw [hid, ← hc]
        exact List.mem_map_of_mem Wallet.id hu
      have hz := walletSum_eq_zero htail
      simp only [walletSum, List.map_cons, List.sum_cons]
      rw [if_pos hid]
      simp only [walletSum] at hz
      rw [hz]
      ring
    · have hxid : x.id ≠ wid := by
        intro hc
        refine hx ?_
        rw [hc, ← hid]
        exact List.mem_map_of_mem Wallet.id hwx
      simp only [walletSum, List.map_cons, List.sum_cons]
      rw [if_neg hxid]
      have := ih hxs hwx
      simp only [walletSum] at this
      rw [this]
      ring

/-! ### Small characterizations of the services -/

theorem condDec_state (s : State) (wid : Nat) (amount : Int) :
    (conditionalDecrement s wid amount).1 =
      { s with wallets := s.wallets.map (fun w =>
          if w.id = wid ∧ amount ≤ w.balance then
            { w with balance := w.balance - amount }
          else w) } := rfl

theorem condDec_fun_pos {wid : Nat} {amount : Int} {w : Wallet}
    (hid : w.id = wid) (hbal : amount ≤ w.balance) :
    (fun u => if u.id = wid ∧ amount ≤ u.balance then
      { u with balance := u.balance - amount } else u) w =
      { w with balance := w.balance + -amount } := by
  show (if w.id = wid ∧ amount ≤ w.balance then
    ({ w with balance := w.balance - amount } : Wallet) else w) = _
  rw [if_pos ⟨hid, hbal⟩, sub_eq_add_neg]

theorem condDec_fun_neg {wid : Nat} {amount : Int} {w : Wallet}
    (hne : w.id ≠ wid) :
    (fun u => if u.id = wid ∧ amount ≤ u.balance then
      { u with balance := u.balance - amount } else u) w = w := by
  show (if w.id = wid ∧ amount ≤ w.balance then
    ({ w with balance := w.balance - amount } : Wallet) else w) = w
  exact if_neg (fun hc => hne hc.1)

theorem condDec_fun_id {wid : Nat} {amount : Int} (u : Wallet) :
    ((fun x => if x.id = wid ∧ amount ≤ x.balance then
      { x with balance := x.balance - amount } else x) u).id = u.id := by
  show (if u.id = wid ∧ amount ≤ u.balance then
    ({ u with balance := u.balance - amount } : Wallet) else u).id = u.id
  by_cases hc : u.id = wid ∧ amount ≤ u.balance
  · rw [if_pos hc]
  · rw [if_neg hc]

theorem inc_fun_pos {wid : Nat} {amt : Int} {w : Wallet} (hid : w.id = wid) :
    (fun u => if u.id = wid then { u with balance := u.balance + amt }
      else u) w = { w with balance := w.balance + amt } := by
  show (if w.id = wid then ({ w with balance := w.balance + amt } : Wallet)
    else w) = _
  rw [if_pos hid]

theorem inc_fun_neg {wid : Nat} {amt : Int} {w : Wallet} (hne : w.id ≠ wid) :
    (fun u => if u.id = wid then { u with balance := u.balance + amt }
      else u) w = w := by
  show (if w.id = wid then ({ w with balance := w.balance + amt } : Wallet)
    else w) = w
  exact if_neg hne

theorem inc_fun_id {wid : Nat} {amt : Int} (u : Wallet) :
    ((fun x => if x.id = wid then { x with balance := x.balance + amt }
      else x) u).id = u.id := by
  show (if u.id = wid then ({ u with balance := u.balance + amt } : Wallet)
    else u).id = u.id
  by_cases hc : u.id = wid
  · rw [if_pos hc]
  · rw [if_neg hc]

theorem condDec_count_ne_zero {s : State} {wid : Nat} {amount : Int}
    {w : Wallet} (hw : w ∈ s.wallets) (hid : w.id = wid)
    (hbal : amount ≤ w.balance) :
    (conditionalDecrement s wid amount).2 ≠ 0 := by
  simp only [conditionalDecrement]
  intro hlen
  rw [List.length_eq_zero] at hlen
  have hmem : w ∈ s.wallets.filter
      (fun w => decide (w.id = wid ∧ amount ≤ w.balance)) :=
    List.mem_filter.mpr ⟨hw, by simp [hid, hbal]⟩
  rw [hlen] at hmem
  cases hmem

theorem condDec_count_eq_zero {s : State} {wid : Nat} {amount : Int}
    (h : ∀ w ∈ s.wallets, w.id = wid → w.balance < amount) :
    (conditionalDecrement s wid amount).2 = 0 := by
  simp only [conditionalDecrement]
  rw [List.length_eq_zero, List.filter_eq_nil_iff]
  intro w hw
  simp only [decide_eq_true_eq, not_and]
  intro hid
  exact not_le.mpr (h w hw hid)

theorem condDec_exists_of_count_ne_zero {s : State} {wid : Nat} {amount : Int}
    (h : (conditionalDecrement s wid amount).2 ≠ 0) :
    ∃ w ∈ s.wallets, w.id = wid ∧ amount ≤ w.balance := by
  simp only [conditionalDecrement] at h
  rcases List.exists_mem_of_length_pos (Nat.pos_of_ne_zero h) with ⟨w, hw⟩
  rcases List.mem_filter.mp hw with ⟨hmem, hpred⟩
  rcases decide_eq_true_eq.mp hpred with ⟨hid, hbal⟩
  exact ⟨w, hmem, hid, hbal⟩

theorem reserveAfterInsert_ok {tx : CreditTransaction} {s1 : State}
    {wid : Nat} {amount : Int}
    (h : (conditionalDecrement s1 wid amount).2 ≠ 0) :
    reserveAfterInsert tx s1 wid amount =
      Except.ok (tx, (conditionalDecrement s1 wid amount).1) := by
  simp [reserveAfterInsert, h]

theorem reserveAfterInsert_fail {tx : CreditTransaction} {s1 : State}
    {wid : Nat} {amount : Int}
    (h : (conditionalDecrement s1 wid amount).2 = 0) :
    reserveAfterInsert tx s1 wid amount =
      Except.error CreditError.insufficientCredits := by
  simp [reserveAfterInsert, h]

theorem reserve_fresh_eq {s : State} {wid : Nat} {amount : Int}
    {key reqId : Option String} {note : String} {now : Int}
    (hamt : 0 < amount)
    (hmiss : keyTruthy key = true → s.txs.find? (fun t =>
      decide (t.walletId = wid ∧ t.idempotencyKey = key)) = none) :
    reserve s wid amount key reqId note now =
      reserveAfterInsert
        (txDefaults wid amount reqId note
          (if keyTruthy key = true then key else none) s.nextId now)
        { s with
          txs := s.txs ++ [txDefaults wid amount reqId note
            (if keyTruthy key = true then key else none) s.nextId now]
          nextId := s.nextId + 1 } wid amount := by
  have hna : ¬ amount ≤ 0 := not_le.mpr hamt
  by_cases hk : keyTruthy key = true
  · simp only [reserve, if_neg hna, hk, if_true, hmiss hk]
  · simp only [reserve, if_neg hna, hk, if_false]
    simp

/-! ### Claim theorems -/

/-- Claim C9: for every wallet and every `amount ≤ 0`, `reserve` fails with
`InvalidAmount` (the `ValueError` of `_validate_amount`) and has no side
effects — validation precedes the transaction, so no ledger row is inserted
and no balance is changed (the returned error carries no state change). -/
theorem reserve_rejects_nonpositive_amount (s : State) (wid : Nat)
    (amount : Int) (key reqId : Option String) (note : String) (now : Int)
    (h : amount ≤ 0) :
    reserve s wid amount key reqId note now =
      Except.error CreditError.invalidAmount := by
  simp [reserve, h]

/-- Witness for C9: both `amount = 0` and `amount = -5` are rejected on a
concrete store. -/
theorem reserve_rejects_nonpositive_amount_witness :
    ((0 : Int) ≤ 0 ∧
      reserve ⟨[⟨1, 10⟩], [], 0⟩ 1 0 none none "api-request" 0 =
        Except.error CreditError.invalidAmount) ∧
    ((-5 : Int) ≤ 0 ∧
      reserve ⟨[⟨1, 10⟩], [], 0⟩ 1 (-5) none none "api-request" 0 =
        Except.error CreditError.invalidAmount) :=
  ⟨⟨by decide,
    reserve_rejects_nonpositive_amount ⟨[⟨1, 10⟩], [], 0⟩ 1 0 none none
      "api-request" 0 (by decide)⟩,
   ⟨by decide,
    reserve_rejects_nonpositive_amount ⟨[⟨1, 10⟩], [], 0⟩ 1 (-5) none none
      "api-request" 0 (by decide)⟩⟩

/-- Claim C6: `commit` on a PENDING row mutates only the `tx_status` field of
that row (wallets, `nextId`, and every other ledger field are untouched); on a
non-PENDING row it returns the row unchanged with no writes; and once the row
is non-PENDING, any sequence of `commit` and `reverse` calls on it leaves the
whole state exactly as the first terminal call produced it. -/
theorem commit_frame_and_terminal_stability (s : State) (txId : Nat)
    (curr : CreditTransaction)
    (hfind : s.txs.find? (fun t => decide (t.id = txId)) = some curr) :
    (curr.txStatus = TxStatus.pending →
      commit_reservation s txId = Except.ok
        ({ curr with txStatus := TxStatus.committed },
         { s with txs := s.txs.map (fun t =>
             if t.id = txId then { t with txStatus := TxStatus.committed }
             else t) })) ∧
    (curr.txStatus ≠ TxStatus.pending →
      commit_reservation s txId = Except.ok (curr, s) ∧
      (∀ reason now, reverse_reservation s txId reason now =
        Except.ok (curr, s)) ∧
      (∀ ops : List Op,
        (∀ op ∈ ops, op = Op.commitOp txId ∨
          ∃ reason now, op = Op.reverseOp txId reason now) →
        applyOps s ops = s)) := by
  constructor
  · intro hp
    simp [commit_reservation, hfind, hp]
  · intro hnp
    have hcommit : commit_reservation s txId = Except.ok (curr, s) := by
      simp [commit_reservation, hfind, hnp]
    have hreverse : ∀ reason now,
        reverse_reservation s txId reason now = Except.ok (curr, s) := by
      intro reason now
      simp [reverse_reservation, hfind, hnp]
    refine ⟨hcommit, hreverse, ?_⟩
    intro ops hops
    induction ops with
    | nil => rfl
    | cons op rest ih =>
      have hop : applyOp s op = s := by
        rcases hops op (List.mem_cons_self op rest) with hc | ⟨reason, now, hr⟩
        · rw [hc]
          simp [applyOp, hcommit]
        · rw [hr]
          simp [applyOp, hreverse reason now]
      show applyOps (applyOp s op) rest = s
      rw [hop]
      exact ih (fun o ho => hops o (List.mem_cons_of_mem op ho))

/-- Witness for C6: a concrete store whose row 0 is already COMMITTED; commit
and reverse are both no-ops, and an arbitrary mixed call sequence is the
identity. -/
theorem commit_frame_and_terminal_stability_witness :
    (⟨[⟨1, 9⟩],
      [⟨0, 1, -1, TxType.debit, TxStatus.committed, none, none, "n", 0⟩],
      1⟩ : State).txs.find? (fun t => decide (t.id = 0)) =
      some ⟨0, 1, -1, TxType.debit, TxStatus.committed, none, none, "n", 0⟩ ∧
    (TxStatus.committed ≠ TxStatus.pending →
      commit_reservation
        ⟨[⟨1, 9⟩],
         [⟨0, 1, -1, TxType.debit, TxStatus.committed, none, none, "n", 0⟩],
         1⟩ 0 =
        Except.ok
          (⟨0, 1, -1, TxType.debit, TxStatus.committed, none, none, "n", 0⟩,
           ⟨[⟨1, 9⟩],
            [⟨0, 1, -1, TxType.debit, TxStatus.committed, none, none, "n", 0⟩],
            1⟩) ∧
      (∀ reason now, reverse_reservation
        ⟨[⟨1, 9⟩],
         [⟨0, 1, -1, TxType.debit, TxStatus.committed, none, none, "n", 0⟩],
         1⟩ 0 reason now =
        Except.ok
          (⟨0, 1, -1, TxType.debit, TxStatus.committed, none, none, "n", 0⟩,
           ⟨[⟨1, 9⟩],
            [⟨0, 1, -1, TxType.debit, TxStatus.committed, none, none, "n", 0⟩],
            1⟩)) ∧
      (∀ ops : List Op,
        (∀ op ∈ ops, op = Op.commitOp 0 ∨
          ∃ reason now, op = Op.reverseOp 0 reason now) →
        applyOps
          ⟨[⟨1, 9⟩],
           [⟨0, 1, -1, TxType.debit, TxStatus.committed, none, none, "n", 0⟩],
           1⟩ ops =
          ⟨[⟨1, 9⟩],
           [⟨0, 1, -1, TxType.debit, TxStatus.committed, none, none, "n", 0⟩],
           1⟩)) :=
  ⟨by decide,
   (commit_frame_and_terminal_stability _ 0
     ⟨0, 1, -1, TxType.debit, TxStatus.committed, none, none, "n", 0⟩
     (by decide)).2⟩

/-- Claim C7: whenever the charge wrapper's `reserve` succeeds, exactly one
terminal action runs before the wrapper returns or re-raises: `commit` when
the handler's status code is in `[200, 400)`, `reverse` with reason
`"http <code>"` for any other status (with the handler's response returned
unchanged in both cases), and `reverse` with reason `"exception"` followed by
re-raising when the handler raises. -/
theorem charge_wrapper_terminal_action (s : State) (wid : Nat)
    (idem reqId : Option String) (now : Int) (tx : CreditTransaction)
    (s1 : State)
    (hres : reserve s wid 1 idem reqId "api-request" now =
      Except.ok (tx, s1)) :
    (∀ code : Nat, 200 ≤ code → code < 400 →
      charge_one_credit s (some wid) idem reqId now
          (HandlerResult.response code) =
        ⟨ChargeOutcome.response code, applyOp s1 (Op.commitOp tx.id),
         some (ChargeAction.didCommit tx.id)⟩) ∧
    (∀ code : Nat, ¬(200 ≤ code ∧ code < 400) →
      charge_one_credit s (some wid) idem reqId now
          (HandlerResult.response code) =
        ⟨ChargeOutcome.response code,
         applyOp s1 (Op.reverseOp tx.id ("http " ++ toString code) now),
         some (ChargeAction.didReverse tx.id ("http " ++ toString code))⟩) ∧
    (charge_one_credit s (some wid) idem reqId now HandlerResult.exception =
      ⟨ChargeOutcome.raised, applyOp s1 (Op.reverseOp tx.id "exception" now),
       some (ChargeAction.didReverse tx.id "exception")⟩) := by
  refine ⟨?_, ?_, ?_⟩
  · intro code h1 h2
    simp only [charge_one_credit, hres]
    rw [if_pos ⟨h1, h2⟩]
    simp [applyOp]
  · intro code hcode
    simp only [charge_one_credit, hres]
    rw [if_neg hcode]
    simp [applyOp]
  · simp only [charge_one_credit, hres]
    simp [applyOp]

/-- Witness for C7: a concrete reservation; the handler raising leads to
`reverse(tx, "exception")` and a re-raise. -/
theorem charge_wrapper_terminal_action_witness :
    reserve ⟨[⟨1, 10⟩], [], 0⟩ 1 1 none (some "r") "api-request" 0 =
      Except.ok
        (⟨0, 1, -1, TxType.debit, TxStatus.pending, none, some "r",
          "api-request", 0⟩,
         ⟨[⟨1, 9⟩],
          [⟨0, 1, -1, TxType.debit, TxStatus.pending, none, some "r",
            "api-request", 0⟩], 1⟩) ∧
    charge_one_credit ⟨[⟨1, 10⟩], [], 0⟩ (some 1) none (some "r") 0
        HandlerResult.exception =
      ⟨ChargeOutcome.raised,
       applyOp
         ⟨[⟨1, 9⟩],
          [⟨0, 1, -1, TxType.debit, TxStatus.pending, none, some "r",
            "api-request", 0⟩], 1⟩
         (Op.reverseOp 0 "exception" 0),
       some (ChargeAction.didReverse 0 "exception")⟩ :=
  ⟨rfl,
   (charge_wrapper_terminal_action ⟨[⟨1, 10⟩], [], 0⟩ 1 none (some "r") 0
     ⟨0, 1, -1, TxType.debit, TxStatus.pending, none, some "r",
       "api-request", 0⟩
     ⟨[⟨1, 9⟩],
      [⟨0, 1, -1, TxType.debit, TxStatus.pending, none, some "r",
        "api-request", 0⟩], 1⟩
     rfl).2.2⟩

/-- Claim C2: with `amount > 0`, no idempotent hit, and every wallet row with
the target id strictly below `amount`, `reserve` fails with
`InsufficientCredits`, and the transaction rolls back: the error outcome
carries no state, so the just-inserted PENDING DEBIT row and the attempted
decrement are undone.  Consequently a wallet whose balance equals `amount`
admits exactly one successful reservation of that amount: the first call
succeeds and drives the balance to `0`, and a repeat of the same reservation
fails with `InsufficientCredits`. -/
theorem reserve_insufficient_fails (s : State) (wid : Nat) (amount : Int)
    (key reqId : Option String) (note : String) (now : Int)
    (hamt : 0 < amount)
    (hnohit : ∀ t ∈ s.txs, ¬(t.walletId = wid ∧ t.idempotencyKey = key))
    (hpoor : ∀ w ∈ s.wallets, w.id = wid → w.balance < amount) :
    reserve s wid amount key reqId note now =
      Except.error CreditError.insufficientCredits ∧
    (∀ (s2 : State) (w : Wallet) (reqId2 reqId3 : Option String)
        (note2 note3 : String) (now2 now3 : Int),
      (s2.wallets.map Wallet.id).Nodup → w ∈ s2.wallets → w.id = wid →
      w.balance = amount →
      ∃ tx s3, reserve s2 wid amount none reqId2 note2 now2 =
          Except.ok (tx, s3) ∧
        walletSum s3.wallets wid = 0 ∧
        reserve s3 wid amount none reqId3 note3 now3 =
          Except.error CreditError.insufficientCredits) := by
  constructor
  · have hmiss : keyTruthy key = true → s.txs.find? (fun t =>
        decide (t.walletId = wid ∧ t.idempotencyKey = key)) = none := by
      intro hk
      exact List.find?_eq_none.mpr (fun t ht => by simpa using hnohit t ht)
    rw [reserve_fresh_eq hamt hmiss]
    exact reserveAfterInsert_fail (condDec_count_eq_zero hpoor)
  · intro s2 w reqId2 reqId3 note2 note3 now2 now3 hnd hw hid hbal
    have hnone : ∀ (s4 : State), keyTruthy (none : Option String) = true →
        s4.txs.find? (fun t =>
          decide (t.walletId = wid ∧ t.idempotencyKey = none)) = none := by
      intro s4 hk
      cases hk
    have hle : amount ≤ w.balance := le_of_eq hbal.symm
    refine ⟨txDefaults wid amount reqId2 note2 none s2.nextId now2,
      (conditionalDecrement { s2 with
        txs := s2.txs ++ [txDefaults wid amount reqId2 note2 none s2.nextId
          now2]
        nextId := s2.nextId + 1 } wid amount).1, ?_, ?_, ?_⟩
    · rw [reserve_fresh_eq hamt (hnone s2)]
      exact reserveAfterInsert_ok (condDec_count_ne_zero hw hid hle)
    · rw [condDec_state]
      show walletSum (s2.wallets.map (fun u =>
        if u.id = wid ∧ amount ≤ u.balance then
          { u with balance := u.balance - amount } else u)) wid = 0
      rw [walletSum_map_single (w := w) (d := -amount) hnd hw hid
          (by rw [if_pos ⟨hid, hle⟩, sub_eq_add_neg])
          (fun u hu hne => if_neg (fun hc => hne hc.1)) wid,
        if_pos rfl, walletSum_eq_balance hnd hw hid, hbal]
      ring
    · rw [reserve_fresh_eq hamt (hnone _)]
      refine reserveAfterInsert_fail (condDec_count_eq_zero ?_)
      rw [condDec_state]
      show ∀ w3 ∈ s2.wallets.map (fun u =>
        if u.id = wid ∧ amount ≤ u.balance then
          { u with balance := u.balance - amount } else u),
        w3.id = wid → w3.balance < amount
      intro w3 hw3 hid3
      rcases List.mem_map.mp hw3 with ⟨u, hu, hfu⟩
      by_cases huid : u.id = wid
      · have huw : u = w := wallet_eq_of_id hnd hu hw (by rw [huid, hid])
        subst huw
        rw [if_pos ⟨huid, hle⟩] at hfu
        rw [← hfu]
        show u.balance - amount < amount
        rw [hbal]
        omega
      · by_cases hub : amount ≤ u.balance
        · rw [if_neg (fun hc => huid hc.1)] at hfu
          rw [← hfu] at hid3
          exact absurd hid3 huid
        · rw [if_neg (fun hc => huid hc.1)] at hfu
          rw [← hfu] at hid3
          exact absurd hid3 huid

/-- Witness for C2: a wallet with balance 3 and a requested amount of 5 on an
empty ledger; the second conjunct exercised at balance exactly 5. -/
theorem reserve_insufficient_fails_witness :
    ((0 : Int) < 5 ∧
      reserve ⟨[⟨1, 3⟩], [], 0⟩ 1 5 none none "api-request" 0 =
        Except.error CreditError.insufficientCredits) ∧
    (∃ tx s3, reserve ⟨[⟨1, 5⟩], [], 0⟩ 1 5 none none "n" 0 =
        Except.ok (tx, s3) ∧
      walletSum s3.wallets 1 = 0 ∧
      reserve s3 1 5 none none "n" 1 =
        Except.error CreditError.insufficientCredits) :=
  ⟨⟨by decide,
    (reserve_insufficient_fails ⟨[⟨1, 3⟩], [], 0⟩ 1 5 none none "api-request"
      0 (by decide) (by intro t ht; cases ht) (by decide)).1⟩,
   (reserve_insufficient_fails ⟨[⟨1, 3⟩], [], 0⟩ 1 5 none none "api-request"
      0 (by decide) (by intro t ht; cases ht) (by decide)).2
     ⟨[⟨1, 5⟩], [], 0⟩ ⟨1, 5⟩ none none "n" "n" 0 1 (by decide)
     (by decide) (by decide) (by decide)⟩

/-- Claim C3: for a non-empty idempotency key with no prior row for
`(wallet, key)` and sufficient balance, calling `reserve` twice with the same
key returns the same ledger row both times and decrements the balance exactly
once: the second call performs no insert and no balance mutation — it returns
the stored row and the unchanged state of the first call. -/
theorem reserve_idempotent_hit (s : State) (wid : Nat) (amount : Int)
    (k : String) (reqId reqId2 : Option String) (note note2 : String)
    (now now2 : Int) (w : Wallet)
    (hk : k ≠ "") (hamt : 0 < amount)
    (hnohit : ∀ t ∈ s.txs, ¬(t.walletId = wid ∧ t.idempotencyKey = some k))
    (hnd : (s.wallets.map Wallet.id).Nodup)
    (hw : w ∈ s.wallets) (hid : w.id = wid) (hbal : amount ≤ w.balance) :
    ∃ tx s1,
      reserve s wid amount (some k) reqId note now = Except.ok (tx, s1) ∧
      reserve s1 wid amount (some k) reqId2 note2 now2 =
        Except.ok (tx, s1) ∧
      tx.idempotencyKey = some k ∧ tx.walletId = wid ∧
      tx.txType = TxType.debit ∧ tx.txStatus = TxStatus.pending ∧
      s1.txs = s.txs ++ [tx] ∧
      walletSum s1.wallets wid = walletSum s.wallets wid - amount := by
  have hkt : keyTruthy (some k) = true := by
    simp [keyTruthy, hk]
  have hmiss : keyTruthy (some k) = true → s.txs.find? (fun t =>
      decide (t.walletId = wid ∧ t.idempotencyKey = some k)) = none := by
    intro hkk
    exact List.find?_eq_none.mpr (fun t ht => by simpa using hnohit t ht)
  refine ⟨txDefaults wid amount reqId note (some k) s.nextId now,
    (conditionalDecrement { s with
      txs := s.txs ++ [txDefaults wid amount reqId note (some k) s.nextId now]
      nextId := s.nextId + 1 } wid amount).1, ?_, ?_, rfl, rfl, rfl, rfl,
    rfl, ?_⟩
  · rw [reserve_fresh_eq hamt hmiss]
    have := @reserveAfterInsert_ok
      (txDefaults wid amount reqId note (some k) s.nextId now)
      { s with txs := s.txs ++ [txDefaults wid amount reqId note (some k) s.nextId now], nextId := s.nextId + 1 }
      wid amount (condDec_count_ne_zero hw hid hbal)
    simp only [hkt, if_true]
    exact this
  · have hna : ¬ amount ≤ 0 := not_le.mpr hamt
    have hfind : ((conditionalDecrement { s with
        txs := s.txs ++ [txDefaults wid amount reqId note (some k) s.nextId
          now]
        nextId := s.nextId + 1 } wid amount).1).txs.find? (fun t =>
          decide (t.walletId = wid ∧ t.idempotencyKey = some k)) =
        some (txDefaults wid amount reqId note (some k) s.nextId now) := by
      rw [condDec_state]
      show (s.txs ++ [txDefaults wid amount reqId note (some k) s.nextId
        now]).find? _ = _
      rw [find?_append_left (fun t ht => by simpa using hnohit t ht)]
      rw [List.find?_cons_of_pos _ (by simp [txDefaults])]
    simp only [reserve, if_neg hna, hkt, if_true, hfind]
  · rw [condDec_state]
    show walletSum (s.wallets.map (fun u =>
      if u.id = wid ∧ amount ≤ u.balance then
        { u with balance := u.balance - amount } else u)) wid =
      walletSum s.wallets wid - amount
    rw [walletSum_map_single (w := w) (d := -amount) hnd hw hid
        (by rw [if_pos ⟨hid, hbal⟩, sub_eq_add_neg])
        (fun u hu hne => if_neg (fun hc => hne hc.1)) wid,
      if_pos rfl]
    ring

/-- Witness for C3: wallet balance 10, amount 4, key `"k"`: the repeat call
returns the identical row and state, and exactly one debit happened. -/
theorem reserve_idempotent_hit_witness :
    ∃ tx s1,
      reserve ⟨[⟨1, 10⟩], [], 0⟩ 1 4 (some "k") none "n" 0 =
        Except.ok (tx, s1) ∧
      reserve s1 1 4 (some "k") none "n2" 7 = Except.ok (tx, s1) ∧
      tx.idempotencyKey = some "k" ∧ tx.walletId = 1 ∧
      tx.txType = TxType.debit ∧ tx.txStatus = TxStatus.pending ∧
      s1.txs = ([] : List CreditTransaction) ++ [tx] ∧
      walletSum s1.wallets 1 = walletSum [⟨1, 10⟩] 1 - 4 :=
  reserve_idempotent_hit ⟨[⟨1, 10⟩], [], 0⟩ 1 4 "k" none none "n" "n2" 0 7
    ⟨1, 10⟩ (by decide) (by decide) (by intro t ht; cases ht) (by decide)
    (by decide) (by decide) (by decide)

/-- Claim C10: `reserve` with the empty-string idempotency key behaves exactly
as if no key were supplied (the guard tests Python truthiness), so every such
call inserts a fresh PENDING DEBIT whose `idempotency_key` is NULL and debits
again: two calls with key `""` yield two distinct rows and two decrements
rather than one idempotent hit. -/
theorem reserve_empty_key_not_idempotent (s : State) (wid : Nat)
    (amount : Int) (reqId reqId2 : Option String) (note note2 : String)
    (now now2 : Int) (w : Wallet)
    (hamt : 0 < amount)
    (hnd : (s.wallets.map Wallet.id).Nodup)
    (hw : w ∈ s.wallets) (hid : w.id = wid)
    (hbal : 2 * amount ≤ w.balance) :
    (∀ (s2 : State) (wid2 : Nat) (a : Int) (r : Option String) (n : String)
        (t : Int),
      reserve s2 wid2 a (some "") r n t = reserve s2 wid2 a none r n t) ∧
    (∃ tx1 s1 tx2 s2,
      reserve s wid amount (some "") reqId note now = Except.ok (tx1, s1) ∧
      reserve s1 wid amount (some "") reqId2 note2 now2 =
        Except.ok (tx2, s2) ∧
      tx1.idempotencyKey = none ∧ tx2.idempotencyKey = none ∧
      tx1.txType = TxType.debit ∧ tx1.txStatus = TxStatus.pending ∧
      tx1.id ≠ tx2.id ∧
      s2.txs = s.txs ++ [tx1] ++ [tx2] ∧
      walletSum s2.wallets wid = walletSum s.wallets wid - 2 * amount) := by
  have hkt : keyTruthy (some "") = false := by decide
  have hmiss : ∀ (s4 : State), keyTruthy (some "" : Option String) = true →
      s4.txs.find? (fun t =>
        decide (t.walletId = wid ∧ t.idempotencyKey = some "")) = none := by
    intro s4 hkk
    rw [hkt] at hkk
    cases hkk
  constructor
  · intro s2 wid2 a r n t
    by_cases ha : a ≤ 0
    · simp [reserve, ha]
    · simp [reserve, ha, keyTruthy]
  · have hamt2 : amount ≤ w.balance := by omega
    set tx1 := txDefaults wid amount reqId note none s.nextId now with htx1
    set sIns := {s with txs := s.txs ++ [tx1], nextId := s.nextId + 1}
      with hsIns
    set s1 := (conditionalDecrement sIns wid amount).1 with hs1
    have hw1 : ({w with balance := w.balance + -amount} : Wallet) ∈
        s1.wallets := by
      rw [hs1, condDec_state]
      rw [← condDec_fun_pos hid hamt2]
      exact List.mem_map_of_mem _ hw
    have hnd1 : (s1.wallets.map Wallet.id).Nodup := by
      rw [hs1, condDec_state]
      show ((s.wallets.map (fun x =>
        if x.id = wid ∧ amount ≤ x.balance then
          { x with balance := x.balance - amount } else x)).map
        Wallet.id).Nodup
      rw [walletIds_map_eq condDec_fun_id]
      exact hnd
    have hbal1 : amount ≤ ({w with balance := w.balance + -amount} :
        Wallet).balance := by
      show amount ≤ w.balance + -amount
      omega
    set tx2 := txDefaults wid amount reqId2 note2 none s1.nextId now2
      with htx2
    set sIns2 := {s1 with txs := s1.txs ++ [tx2], nextId := s1.nextId + 1}
      with hsIns2
    refine ⟨tx1, s1, tx2, (conditionalDecrement sIns2 wid amount).1,
      ?_, ?_, rfl, rfl, rfl, rfl, ?_, ?_, ?_⟩
    · rw [reserve_fresh_eq hamt (hmiss s)]
      have := @reserveAfterInsert_ok tx1 sIns wid amount
        (condDec_count_ne_zero hw hid hamt2)
      simp only [hkt] at this ⊢
      simp only [htx1, hsIns] at this
      convert this using 2
    · rw [reserve_fresh_eq hamt (hmiss s1)]
      have := @reserveAfterInsert_ok tx2 sIns2 wid amount
        (condDec_count_ne_zero hw1 hid hbal1)
      simp only [hkt] at this ⊢
      simp only [htx2, hsIns2] at this
      convert this using 2
    · show s.nextId ≠ s1.nextId
      have : s1.nextId = s.nextId + 1 := by rw [hs1, condDec_state]
      omega
    · show ((conditionalDecrement sIns2 wid amount).1).txs =
        s.txs ++ [tx1] ++ [tx2]
      rw [condDec_state]
      show s1.txs ++ [tx2] = s.txs ++ [tx1] ++ [tx2]
      rw [hs1, condDec_state]
    · rw [condDec_state]
      show walletSum (s1.wallets.map (fun u =>
        if u.id = wid ∧ amount ≤ u.balance then
          { u with balance := u.balance - amount } else u)) wid =
        walletSum s.wallets wid - 2 * amount
      rw [walletSum_map_single
          (f := fun u => if u.id = wid ∧ amount ≤ u.balance then
            { u with balance := u.balance - amount } else u)
          (w := {w with balance := w.balance + -amount})
          (d := -amount) hnd1 hw1 hid
          (condDec_fun_pos hid hbal1)
          (fun u hu hne => condDec_fun_neg hne) wid, if_pos rfl]
      rw [hs1, condDec_state]
      show walletSum (s.wallets.map (fun u =>
        if u.id = wid ∧ amount ≤ u.balance then
          { u with balance := u.balance - amount } else u)) wid + -amount =
        walletSum s.wallets wid - 2 * amount
      rw [walletSum_map_single
          (f := fun u => if u.id = wid ∧ amount ≤ u.balance then
            { u with balance := u.balance - amount } else u)
          (w := w) (d := -amount) hnd hw hid
          (condDec_fun_pos hid hamt2)
          (fun u hu hne => condDec_fun_neg hne) wid, if_pos rfl]
      ring

/-- Witness for C10: two reservations of 3 with key `""` on a wallet with
balance 10 produce two rows and a balance of 4. -/
theorem reserve_empty_key_not_idempotent_witness :
    (∀ (s2 : State) (wid2 : Nat) (a : Int) (r : Option String) (n : String)
        (t : Int),
      reserve s2 wid2 a (some "") r n t = reserve s2 wid2 a none r n t) ∧
    (∃ tx1 s1 tx2 s2,
      reserve ⟨[⟨1, 10⟩], [], 0⟩ 1 3 (some "") none "n" 0 =
        Except.ok (tx1, s1) ∧
      reserve s1 1 3 (some "") none "n2" 1 = Except.ok (tx2, s2) ∧
      tx1.idempotencyKey = none ∧ tx2.idempotencyKey = none ∧
      tx1.txType = TxType.debit ∧ tx1.txStatus = TxStatus.pending ∧
      tx1.id ≠ tx2.id ∧
      s2.txs = ([] : List CreditTransaction) ++ [tx1] ++ [tx2] ∧
      walletSum s2.wallets 1 = walletSum [⟨1, 10⟩] 1 - 2 * 3) :=
  reserve_empty_key_not_idempotent ⟨[⟨1, 10⟩], [], 0⟩ 1 3 none none "n" "n2"
    0 1 ⟨1, 10⟩ (by decide) (by decide) (by decide) (by decide) (by decide)

/-- Claim C5: `reverse` on a PENDING DEBIT row marks it REVERSED with
`note = reason`, increments the wallet balance by `|delta|`, and inserts
exactly one new REFUND row with `delta = |original delta|`,
`tx_status = COMMITTED` and note `"refund of tx <id>: <reason>"`; hence
`reserve` followed by `reverse` is a net-zero balance change leaving one
REVERSED DEBIT and one COMMITTED REFUND. -/
theorem reverse_refund_effects (s : State) (txId : Nat)
    (curr : CreditTransaction) (reason : String) (now : Int)
    (hfind : s.txs.find? (fun t => decide (t.id = txId)) = some curr)
    (hp : curr.txStatus = TxStatus.pending)
    (hneg : curr.delta < 0) :
    (reverse_reservation s txId reason now = Except.ok
      ({ curr with txStatus := TxStatus.reversed, note := reason },
       { s with
         txs := s.txs.map (fun t => if t.id = txId then
             { t with txStatus := TxStatus.reversed, note := reason } else t)
           ++ [refundRow curr reason s.nextId now]
         wallets := s.wallets.map (fun w => if w.id = curr.walletId then
             { w with balance := w.balance + (-curr.delta) } else w)
         nextId := s.nextId + 1 })) ∧
    (refundRow curr reason s.nextId now).delta = |curr.delta| ∧
    (refundRow curr reason s.nextId now).txType = TxType.refund ∧
    (refundRow curr reason s.nextId now).txStatus = TxStatus.committed ∧
    (refundRow curr reason s.nextId now).note =
      "refund of tx " ++ toString curr.id ++ ": " ++ reason ∧
    (∀ w ∈ s.wallets, w.id = curr.walletId →
      ({ w with balance := w.balance + |curr.delta| } : Wallet) ∈
        (s.wallets.map (fun u => if u.id = curr.walletId then
          { u with balance := u.balance + (-curr.delta) } else u))) ∧
    (∀ (s2 : State) (wid : Nat) (amount : Int) (reqId2 : Option String)
        (note2 : String) (now2 now3 : Int) (reason2 : String) (w : Wallet),
      (s2.wallets.map Wallet.id).Nodup → (∀ t ∈ s2.txs, t.id < s2.nextId) →
      w ∈ s2.wallets → w.id = wid → 0 < amount → amount ≤ w.balance →
      ∃ tx s3 tx2 s4,
        reserve s2 wid amount none reqId2 note2 now2 = Except.ok (tx, s3) ∧
        reverse_reservation s3 tx.id reason2 now3 = Except.ok (tx2, s4) ∧
        tx2 = { tx with txStatus := TxStatus.reversed, note := reason2 } ∧
        tx2.txType = TxType.debit ∧ tx2.txStatus = TxStatus.reversed ∧
        s4.txs = (s2.txs ++ [tx2]) ++ [refundRow tx reason2 s3.nextId now3] ∧
        (refundRow tx reason2 s3.nextId now3).txStatus =
          TxStatus.committed ∧
        (refundRow tx reason2 s3.nextId now3).txType = TxType.refund ∧
        walletSum s4.wallets wid = walletSum s2.wallets wid) := by
  have habs : -curr.delta = |curr.delta| := (abs_of_neg hneg).symm
  refine ⟨by simp [reverse_reservation, hfind, hp], by
      show -curr.delta = |curr.delta|
      exact habs, rfl, rfl, rfl, ?_, ?_⟩
  · intro w hw hwid
    rw [← habs, ← inc_fun_pos hwid]
    exact List.mem_map_of_mem _ hw
  · intro s2 wid amount reqId2 note2 now2 now3 reason2 w
    intro hnd hbound hw hid hamt hbal
    set tx := txDefaults wid amount reqId2 note2 none s2.nextId now2 with htx
    set sIns := {s2 with txs := s2.txs ++ [tx], nextId := s2.nextId + 1}
      with hsIns
    set s3 := (conditionalDecrement sIns wid amount).1 with hs3
    have hnone : keyTruthy (none : Option String) = true → s2.txs.find?
        (fun t => decide (t.walletId = wid ∧ t.idempotencyKey = none)) =
          none := by
      intro hk
      cases hk
    have hfind3 : s3.txs.find? (fun t => decide (t.id = tx.id)) =
        some tx := by
      rw [hs3, condDec_state]
      show (s2.txs ++ [tx]).find? _ = _
      rw [find?_append_left (fun t ht => by
        have hb := hbound t ht
        show decide (t.id = tx.id) = false
        exact decide_eq_false (by show ¬ t.id = s2.nextId; omega))]
      rw [List.find?_cons_of_pos _ (by simp)]
    have hrev : reverse_reservation s3 tx.id reason2 now3 = Except.ok
        ({ tx with txStatus := TxStatus.reversed, note := reason2 },
         { s3 with
           txs := s3.txs.map (fun t => if t.id = tx.id then { t with txStatus := TxStatus.reversed, note := reason2 } else t) ++ [refundRow tx reason2 s3.nextId now3]
           wallets := s3.wallets.map (fun u => if u.id = tx.walletId then { u with balance := u.balance + (-tx.delta) } else u)
           nextId := s3.nextId + 1 }) := by
      have hptx : tx.txStatus = TxStatus.pending := rfl
      simp [reverse_reservation, hfind3, hptx]
    refine ⟨tx, s3,
      { tx with txStatus := TxStatus.reversed, note := reason2 }, _,
      ?_, hrev, rfl, rfl, rfl, ?_, rfl, rfl, ?_⟩
    · rw [reserve_fresh_eq hamt hnone]
      exact reserveAfterInsert_ok (condDec_count_ne_zero hw hid hbal)
    · show s3.txs.map (fun t => if t.id = tx.id then { t with txStatus := TxStatus.reversed, note := reason2 } else t) ++ [refundRow tx reason2 s3.nextId now3] = _
      have hs3txs : s3.txs = s2.txs ++ [tx] := by
        rw [hs3, condDec_state]
      rw [hs3txs, List.map_append]
      rw [list_map_id (l := s2.txs) (fun t ht => by
        have hb := hbound t ht
        show (if t.id = tx.id then { t with txStatus := TxStatus.reversed, note := reason2 } else t) = t
        exact if_neg (by show ¬ t.id = s2.nextId; omega))]
      rw [show ([tx].map (fun t => if t.id = tx.id then { t with txStatus := TxStatus.reversed, note := reason2 } else t)) = [{ tx with txStatus := TxStatus.reversed, note := reason2 }] by simp]
    · show walletSum (s3.wallets.map (fun u => if u.id = tx.walletId then { u with balance := u.balance + (-tx.delta) } else u)) wid = walletSum s2.wallets wid
      have hw3 : ({w with balance := w.balance + -amount} : Wallet) ∈
          s3.wallets := by
        rw [hs3, condDec_state]
        rw [← condDec_fun_pos hid hbal]
        exact List.mem_map_of_mem _ hw
      have hnd3 : (s3.wallets.map Wallet.id).Nodup := by
        rw [hs3, condDec_state]
        show ((s2.wallets.map (fun x =>
          if x.id = wid ∧ amount ≤ x.balance then
            { x with balance := x.balance - amount } else x)).map
          Wallet.id).Nodup
        rw [walletIds_map_eq condDec_fun_id]
        exact hnd
      have hdelta : -tx.delta = amount := by
        show -(-amount) = amount
        exact neg_neg amount
      have hwid : tx.walletId = wid := rfl
      simp only [hwid, hdelta]
      rw [walletSum_map_single
          (f := fun u => if u.id = wid then
            { u with balance := u.balance + amount } else u)
          (w := {w with balance := w.balance + -amount})
          (d := amount) hnd3 hw3 hid
          (inc_fun_pos hid)
          (fun u hu hne => inc_fun_neg hne) wid, if_pos rfl]
      have hstep : walletSum s3.wallets wid =
          walletSum s2.wallets wid + -amount := by
        rw [hs3, condDec_state]
        show walletSum (s2.wallets.map (fun u =>
          if u.id = wid ∧ amount ≤ u.balance then
            { u with balance := u.balance - amount } else u)) wid = _
        rw [walletSum_map_single
          (f := fun u => if u.id = wid ∧ amount ≤ u.balance then
            { u with balance := u.balance - amount } else u)
          (w := w) (d := -amount) hnd hw hid
          (condDec_fun_pos hid hbal)
          (fun u hu hne => condDec_fun_neg hne) wid, if_pos rfl]
      rw [hstep]
      ring

/-- Witness for C5: reversing a concrete PENDING DEBIT of 3 on wallet 1. -/
theorem reverse_refund_effects_witness :
    (⟨[⟨1, 7⟩],
      [⟨0, 1, -3, TxType.debit, TxStatus.pending, none, none, "n", 0⟩],
      1⟩ : State).txs.find? (fun t => decide (t.id = 0)) =
      some ⟨0, 1, -3, TxType.debit, TxStatus.pending, none, none, "n", 0⟩ ∧
    reverse_reservation
      ⟨[⟨1, 7⟩],
       [⟨0, 1, -3, TxType.debit, TxStatus.pending, none, none, "n", 0⟩], 1⟩
      0 "r" 5 = Except.ok
        (⟨0, 1, -3, TxType.debit, TxStatus.reversed, none, none, "r", 0⟩,
         ⟨[⟨1, 10⟩],
          [⟨0, 1, -3, TxType.debit, TxStatus.reversed, none, none, "r", 0⟩,
           ⟨1, 1, 3, TxType.refund, TxStatus.committed, none, none,
            "refund of tx 0: r", 5⟩], 2⟩) :=
  ⟨by decide, by
    have h := (reverse_refund_effects
      ⟨[⟨1, 7⟩],
       [⟨0, 1, -3, TxType.debit, TxStatus.pending, none, none, "n", 0⟩], 1⟩
      0 ⟨0, 1, -3, TxType.debit, TxStatus.pending, none, none, "n", 0⟩
      "r" 5 (by decide) (by decide) (by decide)).1
    rw [h]
    rfl⟩

/-! ### Case characterizations of the services (for the trace invariants) -/

theorem reserve_ok_cases {s : State} {wid : Nat} {amount : Int}
    {key reqId : Option String} {note : String} {now : Int}
    {tx : CreditTransaction} {s2 : State}
    (h : reserve s wid amount key reqId note now = Except.ok (tx, s2)) :
    0 < amount ∧
    ((s2 = s ∧ tx ∈ s.txs) ∨
     (∃ key2, tx = txDefaults wid amount reqId note key2 s.nextId now ∧
       s2 = (conditionalDecrement { s with txs := s.txs ++ [tx], nextId := s.nextId + 1 } wid amount).1 ∧
       (conditionalDecrement { s with txs := s.txs ++ [tx], nextId := s.nextId + 1 } wid amount).2 ≠ 0)) := by
  by_cases ha : amount ≤ 0
  · rw [reserve_rejects_nonpositive_amount s wid amount key reqId note now
      ha] at h
    cases h
  refine ⟨not_le.mp ha, ?_⟩
  by_cases hk : keyTruthy key = true
  · have heq : reserve s wid amount key reqId note now =
        (match s.txs.find? (fun t =>
          decide (t.walletId = wid ∧ t.idempotencyKey = key)) with
        | some tx0 => Except.ok (tx0, s)
        | none => reserveAfterInsert (txDefaults wid amount reqId note key s.nextId now) { s with txs := s.txs ++ [txDefaults wid amount reqId note key s.nextId now], nextId := s.nextId + 1 } wid amount) := by
      simp only [reserve, if_neg ha, hk, if_true]
    rw [heq] at h
    cases hfind : s.txs.find? (fun t =>
        decide (t.walletId = wid ∧ t.idempotencyKey = key)) with
    | some tx0 =>
      rw [hfind] at h
      have h1 : tx0 = tx ∧ s = s2 := by
        simpa only [Except.ok.injEq, Prod.mk.injEq] using h
      left
      refine ⟨h1.2.symm, ?_⟩
      rw [← h1.1]
      exact List.mem_of_find?_eq_some hfind
    | none =>
      rw [hfind] at h
      show _
      by_cases hc : (conditionalDecrement { s with txs := s.txs ++ [txDefaults wid amount reqId note key s.nextId now], nextId := s.nextId + 1 } wid amount).2 = 0
      · rw [reserveAfterInsert_fail hc] at h
        cases h
      · rw [reserveAfterInsert_ok hc] at h
        have h1 := (Prod.mk.injEq _ _ _ _).mp (Except.ok.inj h)
        right
        refine ⟨key, h1.1.symm, ?_, ?_⟩
        · rw [← h1.2, ← h1.1]
        · rw [← h1.1]
          exact hc
  · have heq : reserve s wid amount key reqId note now =
        reserveAfterInsert (txDefaults wid amount reqId note none s.nextId now) { s with txs := s.txs ++ [txDefaults wid amount reqId note none s.nextId now], nextId := s.nextId + 1 } wid amount := by
      simp only [reserve, if_neg ha, hk, if_false]
      simp
    rw [heq] at h
    by_cases hc : (conditionalDecrement { s with txs := s.txs ++ [txDefaults wid amount reqId note none s.nextId now], nextId := s.nextId + 1 } wid amount).2 = 0
    · rw [reserveAfterInsert_fail hc] at h
      cases h
    · rw [reserveAfterInsert_ok hc] at h
      have h1 := (Prod.mk.injEq _ _ _ _).mp (Except.ok.inj h)
      right
      refine ⟨none, h1.1.symm, ?_, ?_⟩
      · rw [← h1.2, ← h1.1]
      · rw [← h1.1]
        exact hc

theorem commit_ok_cases {s : State} {txId : Nat}
    {tx2 : CreditTransaction} {s2 : State}
    (h : commit_reservation s txId = Except.ok (tx2, s2)) :
    (s2 = s ∧ tx2 ∈ s.txs) ∨
    (∃ curr, curr ∈ s.txs ∧ curr.txStatus = TxStatus.pending ∧
      tx2 = { curr with txStatus := TxStatus.committed } ∧
      s2 = { s with txs := s.txs.map (fun t => if t.id = txId then { t with txStatus := TxStatus.committed } else t) }) := by
  cases hfind : s.txs.find? (fun t => decide (t.id = txId)) with
  | none =>
    rw [show commit_reservation s txId = Except.error CreditError.notFound
      from by unfold commit_reservation; rw [hfind]] at h
    cases h
  | some curr =>
    have heq : commit_reservation s txId =
        (if curr.txStatus ≠ TxStatus.pending then Except.ok (curr, s)
         else Except.ok ({ curr with txStatus := TxStatus.committed }, { s with txs := s.txs.map (fun t => if t.id = txId then { t with txStatus := TxStatus.committed } else t) })) := by
      unfold commit_reservation
      rw [hfind]
    rw [heq] at h
    by_cases hp : curr.txStatus = TxStatus.pending
    · rw [if_neg (by simp [hp])] at h
      have h1 := (Prod.mk.injEq _ _ _ _).mp (Except.ok.inj h)
      right
      exact ⟨curr, List.mem_of_find?_eq_some hfind, hp, h1.1.symm,
        h1.2.symm⟩
    · rw [if_pos (by simpa using hp)] at h
      have h1 := (Prod.mk.injEq _ _ _ _).mp (Except.ok.inj h)
      left
      refine ⟨h1.2.symm, ?_⟩
      rw [← h1.1]
      exact List.mem_of_find?_eq_some hfind

theorem reverse_ok_cases {s : State} {txId : Nat} {reason : String}
    {now : Int} {tx2 : CreditTransaction} {s2 : State}
    (h : reverse_reservation s txId reason now = Except.ok (tx2, s2)) :
    (s2 = s ∧ tx2 ∈ s.txs) ∨
    (∃ curr, curr ∈ s.txs ∧ curr.txStatus = TxStatus.pending ∧
      tx2 = { curr with txStatus := TxStatus.reversed, note := reason } ∧
      s2 = { s with txs := s.txs.map (fun t => if t.id = txId then { t with txStatus := TxStatus.reversed, note := reason } else t) ++ [refundRow curr reason s.nextId now], wallets := s.wallets.map (fun u => if u.id = curr.walletId then { u with balance := u.balance + (-curr.delta) } else u), nextId := s.nextId + 1 }) := by
  cases hfind : s.txs.find? (fun t => decide (t.id = txId)) with
  | none =>
    rw [show reverse_reservation s txId reason now =
        Except.error CreditError.notFound
      from by unfold reverse_reservation; rw [hfind]] at h
    cases h
  | some curr =>
    have heq : reverse_reservation s txId reason now =
        (if curr.txStatus ≠ TxStatus.pending then Except.ok (curr, s)
         else Except.ok ({ curr with txStatus := TxStatus.reversed, note := reason }, { s with txs := s.txs.map (fun t => if t.id = txId then { t with txStatus := TxStatus.reversed, note := reason } else t) ++ [refundRow curr reason s.nextId now], wallets := s.wallets.map (fun u => if u.id = curr.walletId then { u with balance := u.balance + (-curr.delta) } else u), nextId := s.nextId + 1 })) := by
      unfold reverse_reservation
      rw [hfind]
    rw [heq] at h
    by_cases hp : curr.txStatus = TxStatus.pending
    · rw [if_neg (by simp [hp])] at h
      have h1 := (Prod.mk.injEq _ _ _ _).mp (Except.ok.inj h)
      right
      exact ⟨curr, List.mem_of_find?_eq_some hfind, hp, h1.1.symm,
        h1.2.symm⟩
    · rw [if_pos (by simpa using hp)] at h
      have h1 := (Prod.mk.injEq _ _ _ _).mp (Except.ok.inj h)
      left
      refine ⟨h1.2.symm, ?_⟩
      rw [← h1.1]
      exact List.mem_of_find?_eq_some hfind

theorem top_up_ok_cases {s : State} {wid : Nat} {amount : Int}
    {note : String} {now : Int} {tx2 : CreditTransaction} {s2 : State}
    (h : top_up s wid amount note now = Except.ok (tx2, s2)) :
    0 < amount ∧ (∃ w ∈ s.wallets, w.id = wid) ∧
    tx2.walletId = wid ∧ tx2.delta = amount ∧
    tx2.txType = TxType.credit ∧ tx2.txStatus = TxStatus.committed ∧
    s2 = { s with wallets := s.wallets.map (fun u => if u.id = wid then { u with balance := u.balance + amount } else u), txs := s.txs ++ [tx2], nextId := s.nextId + 1 } := by
  unfold top_up at h
  by_cases ha : amount ≤ 0
  · rw [if_pos ha] at h
    cases h
  rw [if_neg ha] at h
  cases hfind : s.wallets.find? (fun w => decide (w.id = wid)) with
  | none =>
    rw [hfind] at h
    cases h
  | some w =>
    rw [hfind] at h
    rw [if_neg (by simp)] at h
    obtain ⟨h1, h2⟩ := (Prod.mk.injEq _ _ _ _).mp (Except.ok.inj h)
    subst h1
    refine ⟨not_le.mp ha, ?_, rfl, rfl, rfl, rfl, h2.symm⟩
    refine ⟨w, List.mem_of_find?_eq_some hfind, ?_⟩
    have hp := List.find?_some hfind
    exact of_decide_eq_true hp

/-! ### Ledger and balance invariants along traces -/

/-- Shape facts about ledger rows that every reachable state satisfies:
PENDING rows are DEBITs, DEBITs have non-positive `delta`, CREDITs and
REFUNDs have non-negative `delta`. -/
def LedgerOK (s : State) : Prop := ∀ t ∈ s.txs,
  (t.txStatus = TxStatus.pending → t.txType = TxType.debit) ∧
  (t.txType = TxType.debit → t.delta ≤ 0) ∧
  (t.txType ≠ TxType.debit → 0 ≤ t.delta)

/-- Every wallet balance is non-negative. -/
def BalancesOK (s : State) : Prop := ∀ w ∈ s.wallets, 0 ≤ w.balance

theorem J_reserve {s : State} {wid : Nat} {amount : Int}
    {key reqId : Option String} {note : String} {now : Int}
    {tx : CreditTransaction} {s2 : State}
    (h : reserve s wid amount key reqId note now = Except.ok (tx, s2))
    (hL : LedgerOK s) (hB : BalancesOK s) : LedgerOK s2 ∧ BalancesOK s2 := by
  obtain ⟨hamt, hcase⟩ := reserve_ok_cases h
  rcases hcase with ⟨hs2, -⟩ | ⟨key2, htx, hs2, -⟩
  · subst hs2
    exact ⟨hL, hB⟩
  · subst hs2
    constructor
    · intro t ht
      have ht2 : t ∈ s.txs ++ [tx] := ht
      rcases List.mem_append.mp ht2 with hta | htb
      · exact hL t hta
      · have htt : t = tx := by simpa using htb
        subst htt
        rw [htx]
        refine ⟨fun _ => rfl, fun _ => ?_, fun hne => absurd rfl hne⟩
        show -amount ≤ 0
        omega
    · intro w2 hw2
      have hw3 : w2 ∈ s.wallets.map (fun u =>
        if u.id = wid ∧ amount ≤ u.balance then
          { u with balance := u.balance - amount } else u) := hw2
      rcases List.mem_map.mp hw3 with ⟨u, hu, hfu⟩
      have hfu2 : (if u.id = wid ∧ amount ≤ u.balance then
          ({ u with balance := u.balance - amount } : Wallet) else u) =
          w2 := hfu
      have hub := hB u hu
      by_cases hc : u.id = wid ∧ amount ≤ u.balance
      · rw [if_pos hc] at hfu2
        rw [← hfu2]
        show 0 ≤ u.balance - amount
        have := hc.2
        omega
      · rw [if_neg hc] at hfu2
        rw [← hfu2]
        exact hub

theorem J_commit {s : State} {txId : Nat} {tx2 : CreditTransaction}
    {s2 : State} (h : commit_reservation s txId = Except.ok (tx2, s2))
    (hL : LedgerOK s) (hB : BalancesOK s) : LedgerOK s2 ∧ BalancesOK s2 := by
  rcases commit_ok_cases h with ⟨hs2, -⟩ | ⟨curr, -, -, -, hs2⟩
  · subst hs2
    exact ⟨hL, hB⟩
  · subst hs2
    refine ⟨?_, hB⟩
    intro t ht
    have ht2 : t ∈ s.txs.map (fun t => if t.id = txId then
      { t with txStatus := TxStatus.committed } else t) := ht
    rcases List.mem_map.mp ht2 with ⟨u, hu, hfu⟩
    have hfu2 : (if u.id = txId then
        ({ u with txStatus := TxStatus.committed } : CreditTransaction)
        else u) = t := hfu
    have hLu := hL u hu
    by_cases hc : u.id = txId
    · rw [if_pos hc] at hfu2
      rw [← hfu2]
      exact ⟨(fun hpp => by cases hpp), hLu.2.1, hLu.2.2⟩
    · rw [if_neg hc] at hfu2
      rw [← hfu2]
      exact hLu

theorem J_reverse {s : State} {txId : Nat} {reason : String} {now : Int}
    {tx2 : CreditTransaction} {s2 : State}
    (h : reverse_reservation s txId reason now = Except.ok (tx2, s2))
    (hL : LedgerOK s) (hB : BalancesOK s) : LedgerOK s2 ∧ BalancesOK s2 := by
  rcases reverse_ok_cases h with ⟨hs2, -⟩ | ⟨curr, hcurr, hp, -, hs2⟩
  · subst hs2
    exact ⟨hL, hB⟩
  · have hdelta : curr.delta ≤ 0 := (hL curr hcurr).2.1 ((hL curr hcurr).1 hp)
    subst hs2
    constructor
    · intro t ht
      have ht2 : t ∈ s.txs.map (fun t => if t.id = txId then
          { t with txStatus := TxStatus.reversed, note := reason } else t) ++
          [refundRow curr reason s.nextId now] := ht
      rcases List.mem_append.mp ht2 with hta | htb
      · rcases List.mem_map.mp hta with ⟨u, hu, hfu⟩
        have hfu2 : (if u.id = txId then
            ({ u with txStatus := TxStatus.reversed, note := reason } :
              CreditTransaction) else u) = t := hfu
        have hLu := hL u hu
        by_cases hc : u.id = txId
        · rw [if_pos hc] at hfu2
          rw [← hfu2]
          exact ⟨(fun hpp => by cases hpp), hLu.2.1, hLu.2.2⟩
        · rw [if_neg hc] at hfu2
          rw [← hfu2]
          exact hLu
      · have htt : t = refundRow curr reason s.nextId now := by simpa using htb
        subst htt
        refine ⟨(fun hpp => by cases hpp), (fun hty => by cases hty), fun _ => ?_⟩
        show 0 ≤ -curr.delta
        omega
    · intro w2 hw2
      have hw3 : w2 ∈ s.wallets.map (fun u => if u.id = curr.walletId then
        { u with balance := u.balance + (-curr.delta) } else u) := hw2
      rcases List.mem_map.mp hw3 with ⟨u, hu, hfu⟩
      have hfu2 : (if u.id = curr.walletId then
          ({ u with balance := u.balance + (-curr.delta) } : Wallet)
          else u) = w2 := hfu
      have hub := hB u hu
      by_cases hc : u.id = curr.walletId
      · rw [if_pos hc] at hfu2
        rw [← hfu2]
        show 0 ≤ u.balance + -curr.delta
        omega
      · rw [if_neg hc] at hfu2
        rw [← hfu2]
        exact hub

theorem J_topup {s : State} {wid : Nat} {amount : Int} {note : String}
    {now : Int} {tx2 : CreditTransaction} {s2 : State}
    (h : top_up s wid amount note now = Except.ok (tx2, s2))
    (hL : LedgerOK s) (hB : BalancesOK s) : LedgerOK s2 ∧ BalancesOK s2 := by
  obtain ⟨hamt, -, hwid, hdelta, htype, hstatus, hs2⟩ := top_up_ok_cases h
  subst hs2
  constructor
  · intro t ht
    have ht2 : t ∈ s.txs ++ [tx2] := ht
    rcases List.mem_append.mp ht2 with hta | htb
    · exact hL t hta
    · have htt : t = tx2 := by simpa using htb
      subst htt
      refine ⟨fun hpp => ?_, fun hty => ?_, fun _ => ?_⟩
      · rw [hstatus] at hpp
        cases hpp
      · rw [htype] at hty
        cases hty
      · rw [hdelta]
        omega
  · intro w2 hw2
    have hw3 : w2 ∈ s.wallets.map (fun u => if u.id = wid then
      { u with balance := u.balance + amount } else u) := hw2
    rcases List.mem_map.mp hw3 with ⟨u, hu, hfu⟩
    have hfu2 : (if u.id = wid then
        ({ u with balance := u.balance + amount } : Wallet) else u) =
        w2 := hfu
    have hub := hB u hu
    by_cases hc : u.id = wid
    · rw [if_pos hc] at hfu2
      rw [← hfu2]
      show 0 ≤ u.balance + amount
      omega
    · rw [if_neg hc] at hfu2
      rw [← hfu2]
      exact hub

/-! ### Generic preservation along the sweeper and along traces -/

theorem reverseOne_P {P : State → Prop} {now : Int}
    (hstep : ∀ (s : State) (txId : Nat) (tx2 : CreditTransaction)
      (s2 : State), P s →
      reverse_reservation s txId "expired" now = Except.ok (tx2, s2) → P s2)
    (s : State) (txId : Nat) (hP : P s) : P (reverseOne now s txId) := by
  unfold reverseOne
  cases hres : reverse_reservation s txId "expired" now with
  | error e => exact hP
  | ok p => exact hstep s txId p.1 p.2 hP (by rw [hres])

theorem reverseBatch_P {P : State → Prop} {now : Int}
    (hstep : ∀ (s : State) (txId : Nat) (tx2 : CreditTransaction)
      (s2 : State), P s →
      reverse_reservation s txId "expired" now = Except.ok (tx2, s2) → P s2) :
    ∀ (batch : List CreditTransaction) (s : State), P s →
      P (reverseBatch now s batch) := by
  intro batch
  induction batch with
  | nil => intro s hP; exact hP
  | cons t rest ih =>
    intro s hP
    exact ih _ (reverseOne_P hstep s t.id hP)

theorem sweepLoop_P {P : State → Prop} {now cutoff : Int} {chunk : Nat}
    (hstep : ∀ (s : State) (txId : Nat) (tx2 : CreditTransaction)
      (s2 : State), P s →
      reverse_reservation s txId "expired" now = Except.ok (tx2, s2) → P s2) :
    ∀ (fuel : Nat) (s : State) (total : Nat), P s →
      P (sweepLoop now cutoff chunk fuel s total).1 := by
  intro fuel
  induction fuel with
  | zero => intro s total hP; exact hP
  | succ fuel ih =>
    intro s total hP
    by_cases hb : (staleBatch s cutoff chunk).isEmpty
    · simp only [sweepLoop, hb, if_true]
      exact hP
    · simp only [sweepLoop, hb, if_false]
      exact ih _ _ (reverseBatch_P hstep _ s hP)

theorem applyOp_J (s : State) (op : Op)
    (hJ : LedgerOK s ∧ BalancesOK s) :
    LedgerOK (applyOp s op) ∧ BalancesOK (applyOp s op) := by
  obtain ⟨hL, hB⟩ := hJ
  cases op with
  | reserveOp wid amount key reqId note now =>
    cases hres : reserve s wid amount key reqId note now with
    | error e =>
      have happ : applyOp s (Op.reserveOp wid amount key reqId note now) =
          s := by
        simp only [applyOp, hres]
      rw [happ]
      exact ⟨hL, hB⟩
    | ok p =>
      obtain ⟨tx2, s2⟩ := p
      have happ : applyOp s (Op.reserveOp wid amount key reqId note now) =
          s2 := by
        simp only [applyOp, hres]
      rw [happ]
      exact J_reserve hres hL hB
  | commitOp txId =>
    cases hres : commit_reservation s txId with
    | error e =>
      have happ : applyOp s (Op.commitOp txId) = s := by
        simp only [applyOp, hres]
      rw [happ]
      exact ⟨hL, hB⟩
    | ok p =>
      obtain ⟨tx2, s2⟩ := p
      have happ : applyOp s (Op.commitOp txId) = s2 := by
        simp only [applyOp, hres]
      rw [happ]
      exact J_commit hres hL hB
  | reverseOp txId reason now =>
    cases hres : reverse_reservation s txId reason now with
    | error e =>
      have happ : applyOp s (Op.reverseOp txId reason now) = s := by
        simp only [applyOp, hres]
      rw [happ]
      exact ⟨hL, hB⟩
    | ok p =>
      obtain ⟨tx2, s2⟩ := p
      have happ : applyOp s (Op.reverseOp txId reason now) = s2 := by
        simp only [applyOp, hres]
      rw [happ]
      exact J_reverse hres hL hB
  | topUpOp wid amount note now =>
    cases hres : top_up s wid amount note now with
    | error e =>
      have happ : applyOp s (Op.topUpOp wid amount note now) = s := by
        simp only [applyOp, hres]
      rw [happ]
      exact ⟨hL, hB⟩
    | ok p =>
      obtain ⟨tx2, s2⟩ := p
      have happ : applyOp s (Op.topUpOp wid amount note now) = s2 := by
        simp only [applyOp, hres]
      rw [happ]
      exact J_topup hres hL hB
  | sweepOp now ttl chunk =>
    exact sweepLoop_P (fun s3 txId tx2 s4 hP hres =>
      J_reverse hres hP.1 hP.2) _ s 0 ⟨hL, hB⟩

theorem applyOps_P {P : State → Prop}
    (h : ∀ s op, P s → P (applyOp s op)) :
    ∀ (ops : List Op) (s : State), P s → P (applyOps s ops) := by
  intro ops
  induction ops with
  | nil => intro s hP; exact hP
  | cons op rest ih =>
    intro s hP
    exact ih _ (h s op hP)

/-- Claim C1: starting from any store with non-negative balances and an empty
ledger, every wallet balance stays non-negative after any sequence of
reserve, commit, reverse, top-up and sweep operations; and in particular the
single conditional UPDATE leaves a wallet row untouched whenever its balance
is below the requested amount. -/
theorem balance_never_negative (s0 : State) (ops : List Op)
    (hbal : ∀ w ∈ s0.wallets, 0 ≤ w.balance) (htx : s0.txs = []) :
    (∀ w ∈ (applyOps s0 ops).wallets, 0 ≤ w.balance) ∧
    (∀ (s : State) (wid : Nat) (amount : Int) (w : Wallet), w ∈ s.wallets →
      w.balance < amount →
      w ∈ ((conditionalDecrement s wid amount).1).wallets) := by
  constructor
  · have hL0 : LedgerOK s0 := by
      intro t ht
      rw [htx] at ht
      cases ht
    have hJ := applyOps_P
      (P := fun s => LedgerOK s ∧ BalancesOK s) applyOp_J ops s0 ⟨hL0, hbal⟩
    exact hJ.2
  · intro s wid amount w hw hlt
    have hfw : (fun u => if u.id = wid ∧ amount ≤ u.balance then
        ({ u with balance := u.balance - amount } : Wallet) else u) w =
        w := by
      show (if w.id = wid ∧ amount ≤ w.balance then
        ({ w with balance := w.balance - amount } : Wallet) else w) = w
      exact if_neg (fun hc => absurd hc.2 (not_le.mpr hlt))
    rw [condDec_state]
    exact mem_map_self hw hfw

/-- Witness for C1: a two-wallet store run through a concrete trace of all
five operations keeps both balances non-negative. -/
theorem balance_never_negative_witness :
    (∀ w ∈ ([⟨1, 5⟩, ⟨2, 0⟩] : List Wallet), 0 ≤ w.balance) ∧
    (⟨[⟨1, 5⟩, ⟨2, 0⟩], [], 0⟩ : State).txs = [] ∧
    ((∀ w ∈ (applyOps ⟨[⟨1, 5⟩, ⟨2, 0⟩], [], 0⟩
        [Op.reserveOp 1 5 none none "n" 0, Op.reserveOp 2 1 none none "n" 0,
         Op.topUpOp 2 4 "t" 1, Op.reserveOp 2 3 (some "k") none "n" 2,
         Op.commitOp 2, Op.reverseOp 0 "r" 3,
         Op.sweepOp 400 300 500]).wallets, 0 ≤ w.balance) ∧
     (∀ (s : State) (wid : Nat) (amount : Int) (w : Wallet),
       w ∈ s.wallets → w.balance < amount →
       w ∈ ((conditionalDecrement s wid amount).1).wallets)) :=
  ⟨by decide, rfl,
   balance_never_negative ⟨[⟨1, 5⟩, ⟨2, 0⟩], [], 0⟩
     [Op.reserveOp 1 5 none none "n" 0, Op.reserveOp 2 1 none none "n" 0,
      Op.topUpOp 2 4 "t" 1, Op.reserveOp 2 3 (some "k") none "n" 2,
      Op.commitOp 2, Op.reverseOp 0 "r" 3,
      Op.sweepOp 400 300 500] (by decide) rfl⟩

/-! ### Conservation quantity: preservation along traces -/

/-- Every ledger row points at an existing wallet row (the foreign key of the
schema). -/
def WalletFK (s : State) : Prop :=
  ∀ t ∈ s.txs, ∃ w ∈ s.wallets, w.id = t.walletId

theorem fk_map_transfer {ws : List Wallet} {f : Wallet → Wallet} {x : Nat}
    (hf : ∀ u, (f u).id = u.id) :
    (∃ w ∈ ws, w.id = x) → ∃ w2 ∈ ws.map f, w2.id = x := by
  rintro ⟨w, hw, hid⟩
  exact ⟨f w, List.mem_map_of_mem f hw, by rw [hf w, hid]⟩

theorem qContrib_updater_commit {txId : Nat} (t : CreditTransaction) :
    ((fun u => if u.id = txId then
      ({ u with txStatus := TxStatus.committed } : CreditTransaction)
      else u) t).walletId = t.walletId ∧
    qContrib ((fun u => if u.id = txId then
      ({ u with txStatus := TxStatus.committed } : CreditTransaction)
      else u) t) = qContrib t := by
  show (if t.id = txId then
    ({ t with txStatus := TxStatus.committed } : CreditTransaction)
    else t).walletId = t.walletId ∧ qContrib (if t.id = txId then
    ({ t with txStatus := TxStatus.committed } : CreditTransaction)
    else t) = qContrib t
  by_cases hc : t.id = txId
  · rw [if_pos hc]
    exact ⟨rfl, rfl⟩
  · rw [if_neg hc]
    exact ⟨rfl, rfl⟩

theorem qContrib_updater_reverse {txId : Nat} {reason : String}
    (t : CreditTransaction) :
    ((fun u => if u.id = txId then
      ({ u with txStatus := TxStatus.reversed, note := reason } :
        CreditTransaction) else u) t).walletId = t.walletId ∧
    qContrib ((fun u => if u.id = txId then
      ({ u with txStatus := TxStatus.reversed, note := reason } :
        CreditTransaction) else u) t) = qContrib t := by
  show (if t.id = txId then
    ({ t with txStatus := TxStatus.reversed, note := reason } :
      CreditTransaction) else t).walletId = t.walletId ∧
    qContrib (if t.id = txId then
    ({ t with txStatus := TxStatus.reversed, note := reason } :
      CreditTransaction) else t) = qContrib t
  by_cases hc : t.id = txId
  · rw [if_pos hc]
    exact ⟨rfl, rfl⟩
  · rw [if_neg hc]
    exact ⟨rfl, rfl⟩

theorem inv4q_reserve {s : State} {wid : Nat} {amount : Int}
    {key reqId : Option String} {note : String} {now : Int}
    {tx : CreditTransaction} {s2 : State}
    (h : reserve s wid amount key reqId note now = Except.ok (tx, s2))
    (hnd : (s.wallets.map Wallet.id).Nodup) (hFK : WalletFK s) :
    (s2.wallets.map Wallet.id).Nodup ∧ WalletFK s2 ∧
    (∀ wid2, qVal s2 wid2 = qVal s wid2) := by
  obtain ⟨hamt, hcase⟩ := reserve_ok_cases h
  rcases hcase with ⟨hs2, -⟩ | ⟨key2, htx, hs2, hcount⟩
  · subst hs2
    exact ⟨hnd, hFK, fun _ => rfl⟩
  · obtain ⟨wm, hwm, hwmid, hwmbal⟩ := condDec_exists_of_count_ne_zero hcount
    have hwm2 : wm ∈ s.wallets := hwm
    subst hs2
    refine ⟨?_, ?_, ?_⟩
    · show ((s.wallets.map (fun x => if x.id = wid ∧ amount ≤ x.balance then
        { x with balance := x.balance - amount } else x)).map
        Wallet.id).Nodup
      rw [walletIds_map_eq condDec_fun_id]
      exact hnd
    · intro t ht
      have ht2 : t ∈ s.txs ++ [tx] := ht
      have hgoal : ∃ w2 ∈ s.wallets.map (fun x =>
          if x.id = wid ∧ amount ≤ x.balance then
            { x with balance := x.balance - amount } else x),
          w2.id = t.walletId := by
        rcases List.mem_append.mp ht2 with hta | htb
        · exact fk_map_transfer condDec_fun_id (hFK t hta)
        · have htt : t = tx := by simpa using htb
          subst htt
          refine fk_map_transfer condDec_fun_id ⟨wm, hwm2, ?_⟩
          rw [hwmid, htx]
          rfl
      exact hgoal
    · intro wid2
      show walletSum (s.wallets.map (fun x =>
          if x.id = wid ∧ amount ≤ x.balance then
            { x with balance := x.balance - amount } else x)) wid2 +
        txSum (s.txs ++ [tx]) wid2 qContrib =
        walletSum s.wallets wid2 + txSum s.txs wid2 qContrib
      rw [walletSum_map_single
          (f := fun x => if x.id = wid ∧ amount ≤ x.balance then
            { x with balance := x.balance - amount } else x)
          (w := wm) (d := -amount) hnd hwm2 hwmid
          (condDec_fun_pos hwmid hwmbal)
          (fun u hu hne => condDec_fun_neg hne) wid2]
      rw [txSum_append, txSum_singleton]
      have hqc : qContrib tx = amount := by
        rw [htx]
        show (if TxType.debit = TxType.debit then |(-amount)| else
          -|(-amount)|) = amount
        rw [if_pos rfl, abs_neg, abs_of_pos hamt]
      have hwtx : tx.walletId = wid := by
        rw [htx]
        rfl
      rw [hqc, hwtx]
      by_cases hww : wid2 = wid
      · rw [if_pos hww, if_pos hww.symm]
        ring
      · rw [if_neg hww, if_neg (fun hc => hww hc.symm)]
        ring

theorem inv4q_commit {s : State} {txId : Nat} {tx2 : CreditTransaction}
    {s2 : State} (h : commit_reservation s txId = Except.ok (tx2, s2))
    (hnd : (s.wallets.map Wallet.id).Nodup) (hFK : WalletFK s) :
    (s2.wallets.map Wallet.id).Nodup ∧ WalletFK s2 ∧
    (∀ wid2, qVal s2 wid2 = qVal s wid2) := by
  rcases commit_ok_cases h with ⟨hs2, -⟩ | ⟨curr, -, -, -, hs2⟩
  · subst hs2
    exact ⟨hnd, hFK, fun _ => rfl⟩
  · subst hs2
    refine ⟨hnd, ?_, ?_⟩
    · intro t ht
      have ht2 : t ∈ s.txs.map (fun u => if u.id = txId then
        { u with txStatus := TxStatus.committed } else u) := ht
      rcases List.mem_map.mp ht2 with ⟨u, hu, hfu⟩
      have hwid : t.walletId = u.walletId := by
        rw [← hfu]
        exact (qContrib_updater_commit u).1
      rw [hwid]
      exact hFK u hu
    · intro wid2
      show walletSum s.wallets wid2 + txSum (s.txs.map (fun u =>
          if u.id = txId then { u with txStatus := TxStatus.committed }
          else u)) wid2 qContrib =
        walletSum s.wallets wid2 + txSum s.txs wid2 qContrib
      rw [txSum_map_congr (fun t _ => qContrib_updater_commit t)]

theorem inv4q_reverse {s : State} {txId : Nat} {reason : String} {now : Int}
    {tx2 : CreditTransaction} {s2 : State}
    (h : reverse_reservation s txId reason now = Except.ok (tx2, s2))
    (hnd : (s.wallets.map Wallet.id).Nodup) (hFK : WalletFK s)
    (hL : LedgerOK s) :
    (s2.wallets.map Wallet.id).Nodup ∧ WalletFK s2 ∧
    (∀ wid2, qVal s2 wid2 = qVal s wid2) := by
  rcases reverse_ok_cases h with ⟨hs2, -⟩ | ⟨curr, hcurr, hp, -, hs2⟩
  · subst hs2
    exact ⟨hnd, hFK, fun _ => rfl⟩
  · have hdelta : curr.delta ≤ 0 :=
      (hL curr hcurr).2.1 ((hL curr hcurr).1 hp)
    obtain ⟨wm, hwm, hwmid⟩ := hFK curr hcurr
    subst hs2
    refine ⟨?_, ?_, ?_⟩
    · show ((s.wallets.map (fun u => if u.id = curr.walletId then
        { u with balance := u.balance + (-curr.delta) } else u)).map
        Wallet.id).Nodup
      rw [walletIds_map_eq inc_fun_id]
      exact hnd
    · intro t ht
      have ht2 : t ∈ s.txs.map (fun u => if u.id = txId then
          { u with txStatus := TxStatus.reversed, note := reason } else u) ++
          [refundRow curr reason s.nextId now] := ht
      have hgoal : ∃ w2 ∈ s.wallets.map (fun u =>
          if u.id = curr.walletId then
            { u with balance := u.balance + (-curr.delta) } else u),
          w2.id = t.walletId := by
        rcases List.mem_append.mp ht2 with hta | htb
        · rcases List.mem_map.mp hta with ⟨u, hu, hfu⟩
          have hwid : t.walletId = u.walletId := by
            rw [← hfu]
            exact (qContrib_updater_reverse u).1
          rw [hwid]
          exact fk_map_transfer inc_fun_id (hFK u hu)
        · have htt : t = refundRow curr reason s.nextId now := by
            simpa using htb
          subst htt
          exact fk_map_transfer inc_fun_id ⟨wm, hwm, hwmid⟩
      exact hgoal
    · intro wid2
      show walletSum (s.wallets.map (fun u => if u.id = curr.walletId then
          { u with balance := u.balance + (-curr.delta) } else u)) wid2 +
        txSum (s.txs.map (fun u => if u.id = txId then
          { u with txStatus := TxStatus.reversed, note := reason } else u) ++
          [refundRow curr reason s.nextId now]) wid2 qContrib =
        walletSum s.wallets wid2 + txSum s.txs wid2 qContrib
      rw [walletSum_map_single
          (f := fun u => if u.id = curr.walletId then
            { u with balance := u.balance + (-curr.delta) } else u)
          (w := wm) (d := -curr.delta) hnd hwm hwmid
          (inc_fun_pos hwmid)
          (fun u hu hne => inc_fun_neg hne) wid2]
      rw [txSum_append, txSum_singleton,
        txSum_map_congr (fun t _ => qContrib_updater_reverse t)]
      have hqc : qContrib (refundRow curr reason s.nextId now) =
          curr.delta := by
        show (if TxType.refund = TxType.debit then |(-curr.delta)| else
          -|(-curr.delta)|) = curr.delta
        rw [if_neg (by intro hc; cases hc), abs_neg,
          abs_of_nonpos hdelta, neg_neg]
      have hwrf : (refundRow curr reason s.nextId now).walletId =
          curr.walletId := rfl
      rw [hqc, hwrf]
      by_cases hww : wid2 = curr.walletId
      · rw [if_pos hww, if_pos hww.symm]
        ring
      · rw [if_neg hww, if_neg (fun hc => hww hc.symm)]
        ring

theorem inv4q_topup {s : State} {wid : Nat} {amount : Int} {note : String}
    {now : Int} {tx2 : CreditTransaction} {s2 : State}
    (h : top_up s wid amount note now = Except.ok (tx2, s2))
    (hnd : (s.wallets.map Wallet.id).Nodup) (hFK : WalletFK s) :
    (s2.wallets.map Wallet.id).Nodup ∧ WalletFK s2 ∧
    (∀ wid2, qVal s2 wid2 = qVal s wid2) := by
  obtain ⟨hamt, hex, hwid, hdelta, htype, hstatus, hs2⟩ := top_up_ok_cases h
  obtain ⟨wm, hwm, hwmid⟩ := hex
  subst hs2
  refine ⟨?_, ?_, ?_⟩
  · show ((s.wallets.map (fun u => if u.id = wid then
      { u with balance := u.balance + amount } else u)).map
      Wallet.id).Nodup
    rw [walletIds_map_eq inc_fun_id]
    exact hnd
  · intro t ht
    have ht2 : t ∈ s.txs ++ [tx2] := ht
    have hgoal : ∃ w2 ∈ s.wallets.map (fun u => if u.id = wid then
        { u with balance := u.balance + amount } else u),
        w2.id = t.walletId := by
      rcases List.mem_append.mp ht2 with hta | htb
      · exact fk_map_transfer inc_fun_id (hFK t hta)
      · have htt : t = tx2 := by simpa using htb
        subst htt
        refine fk_map_transfer inc_fun_id ⟨wm, hwm, ?_⟩
        rw [hwmid, hwid]
    exact hgoal
  · intro wid2
    show walletSum (s.wallets.map (fun u => if u.id = wid then
        { u with balance := u.balance + amount } else u)) wid2 +
      txSum (s.txs ++ [tx2]) wid2 qContrib =
      walletSum s.wallets wid2 + txSum s.txs wid2 qContrib
    rw [walletSum_map_single
        (f := fun u => if u.id = wid then
          { u with balance := u.balance + amount } else u)
        (w := wm) (d := amount) hnd hwm hwmid
        (inc_fun_pos hwmid)
        (fun u hu hne => inc_fun_neg hne) wid2]
    rw [txSum_append, txSum_singleton]
    have hqc : qContrib tx2 = -amount := by
      show (if tx2.txType = TxType.debit then |tx2.delta| else
        -|tx2.delta|) = -amount
      rw [if_neg (by rw [htype]; intro hc; cases hc), hdelta,
        abs_of_pos hamt]
    rw [hqc, hwid]
    by_cases hww : wid2 = wid
    · rw [if_pos hww, if_pos hww.symm]
      ring
    · rw [if_neg hww, if_neg (fun hc => hww hc.symm)]
      ring

theorem applyOp_inv4q (s : State) (op : Op)
    (hP : (s.wallets.map Wallet.id).Nodup ∧ WalletFK s ∧ LedgerOK s ∧
      BalancesOK s) :
    (((applyOp s op).wallets.map Wallet.id).Nodup ∧ WalletFK (applyOp s op) ∧
      LedgerOK (applyOp s op) ∧ BalancesOK (applyOp s op)) ∧
    (∀ wid2, qVal (applyOp s op) wid2 = qVal s wid2) := by
  obtain ⟨hnd, hFK, hL, hB⟩ := hP
  cases op with
  | reserveOp wid amount key reqId note now =>
    cases hres : reserve s wid amount key reqId note now with
    | error e =>
      have happ : applyOp s (Op.reserveOp wid amount key reqId note now) =
          s := by
        simp only [applyOp, hres]
      rw [happ]
      exact ⟨⟨hnd, hFK, hL, hB⟩, fun _ => rfl⟩
    | ok p =>
      obtain ⟨tx2, s2⟩ := p
      have happ : applyOp s (Op.reserveOp wid amount key reqId note now) =
          s2 := by
        simp only [applyOp, hres]
      rw [happ]
      obtain ⟨hnd2, hFK2, hq⟩ := inv4q_reserve hres hnd hFK
      obtain ⟨hL2, hB2⟩ := J_reserve hres hL hB
      exact ⟨⟨hnd2, hFK2, hL2, hB2⟩, hq⟩
  | commitOp txId =>
    cases hres : commit_reservation s txId with
    | error e =>
      have happ : applyOp s (Op.commitOp txId) = s := by
        simp only [applyOp, hres]
      rw [happ]
      exact ⟨⟨hnd, hFK, hL, hB⟩, fun _ => rfl⟩
    | ok p =>
      obtain ⟨tx2, s2⟩ := p
      have happ : applyOp s (Op.commitOp txId) = s2 := by
        simp only [applyOp, hres]
      rw [happ]
      obtain ⟨hnd2, hFK2, hq⟩ := inv4q_commit hres hnd hFK
      obtain ⟨hL2, hB2⟩ := J_commit hres hL hB
      exact ⟨⟨hnd2, hFK2, hL2, hB2⟩, hq⟩
  | reverseOp txId reason now =>
    cases hres : reverse_reservation s txId reason now with
    | error e =>
      have happ : applyOp s (Op.reverseOp txId reason now) = s := by
        simp only [applyOp, hres]
      rw [happ]
      exact ⟨⟨hnd, hFK, hL, hB⟩, fun _ => rfl⟩
    | ok p =>
      obtain ⟨tx2, s2⟩ := p
      have happ : applyOp s (Op.reverseOp txId reason now) = s2 := by
        simp only [applyOp, hres]
      rw [happ]
      obtain ⟨hnd2, hFK2, hq⟩ := inv4q_reverse hres hnd hFK hL
      obtain ⟨hL2, hB2⟩ := J_reverse hres hL hB
      exact ⟨⟨hnd2, hFK2, hL2, hB2⟩, hq⟩
  | topUpOp wid amount note now =>
    cases hres : top_up s wid amount note now with
    | error e =>
      have happ : applyOp s (Op.topUpOp wid amount note now) = s := by
        simp only [applyOp, hres]
      rw [happ]
      exact ⟨⟨hnd, hFK, hL, hB⟩, fun _ => rfl⟩
    | ok p =>
      obtain ⟨tx2, s2⟩ := p
      have happ : applyOp s (Op.topUpOp wid amount note now) = s2 := by
        simp only [applyOp, hres]
      rw [happ]
      obtain ⟨hnd2, hFK2, hq⟩ := inv4q_topup hres hnd hFK
      obtain ⟨hL2, hB2⟩ := J_topup hres hL hB
      exact ⟨⟨hnd2, hFK2, hL2, hB2⟩, hq⟩
  | sweepOp now ttl chunk =>
    have hloop := @sweepLoop_P
      (fun s3 => ((s3.wallets.map Wallet.id).Nodup ∧ WalletFK s3 ∧
        LedgerOK s3 ∧ BalancesOK s3) ∧
        ∀ wid2, qVal s3 wid2 = qVal s wid2)
      now (now - ttl) chunk
      (fun s3 txId tx2 s4 hPs hres => by
        obtain ⟨⟨hnd3, hFK3, hL3, hB3⟩, hq3⟩ := hPs
        obtain ⟨hnd4, hFK4, hq4⟩ := inv4q_reverse hres hnd3 hFK3 hL3
        obtain ⟨hL4, hB4⟩ := J_reverse hres hL3 hB3
        exact ⟨⟨hnd4, hFK4, hL4, hB4⟩, fun wid2 => by
          rw [hq4 wid2, hq3 wid2]⟩)
      (s.txs.length + 1) s 0 ⟨⟨hnd, hFK, hL, hB⟩, fun _ => rfl⟩
    exact hloop

/-- Counterexample to claim C4 as stated: on a wallet with balance 10 and an
empty ledger, `reserve(3)` followed by `reverse` leaves the spec's quantity
`balance + Σ|δ| PENDING DEBITs + Σ|δ| COMMITTED DEBITs − Σ|δ| CREDITs and
REFUNDs` at `10 + 0 + 0 − 3 = 7 ≠ 10`: the REVERSED DEBIT drops out of the
sums while its REFUND row is still subtracted. -/
theorem conservation_spec_counterexample :
    ¬ (qSpecVal (applyOps ⟨[⟨1, 10⟩], [], 0⟩
      [Op.reserveOp 1 3 none none "n" 0, Op.reverseOp 0 "r" 1]) 1 =
      qSpecVal ⟨[⟨1, 10⟩], [], 0⟩ 1) := by decide

/-- Claim C4 (amended): the conserved quantity must also count REVERSED
DEBIT rows: for every wallet,
`balance + Σ|delta| of DEBIT rows (PENDING, COMMITTED or REVERSED) − Σ|delta|
of CREDIT and REFUND rows` equals the wallet's initial balance and is
preserved by every reserve, commit, reverse, top-up and sweep operation. -/
theorem conservation_amended (s0 : State) (ops : List Op) (wid : Nat)
    (hnd : (s0.wallets.map Wallet.id).Nodup)
    (hbal : ∀ w ∈ s0.wallets, 0 ≤ w.balance)
    (htx : s0.txs = []) :
    qVal (applyOps s0 ops) wid = qVal s0 wid ∧
    qVal s0 wid = walletSum s0.wallets wid := by
  constructor
  · have hP := applyOps_P
      (P := fun s2 => ((s2.wallets.map Wallet.id).Nodup ∧ WalletFK s2 ∧
        LedgerOK s2 ∧ BalancesOK s2) ∧
        ∀ wid2, qVal s2 wid2 = qVal s0 wid2)
      (fun s2 op hPs => by
        obtain ⟨hinv, hq⟩ := hPs
        obtain ⟨hinv2, hq2⟩ := applyOp_inv4q s2 op hinv
        exact ⟨hinv2, fun wid2 => by rw [hq2 wid2, hq wid2]⟩)
      ops s0
      ⟨⟨hnd, (fun t ht => by rw [htx] at ht; cases ht),
        (fun t ht => by rw [htx] at ht; cases ht), hbal⟩, fun _ => rfl⟩
    exact hP.2 wid
  · show walletSum s0.wallets wid + txSum s0.txs wid qContrib =
      walletSum s0.wallets wid
    rw [htx]
    show walletSum s0.wallets wid + 0 = walletSum s0.wallets wid
    ring

/-- Witness for the amended C4: a concrete trace over a wallet with initial
balance 10 (reserve, commit, reverse, top-up, sweep) keeps the amended
quantity at 10. -/
theorem conservation_amended_witness :
    (([⟨1, 10⟩] : List Wallet).map Wallet.id).Nodup ∧
    (∀ w ∈ ([⟨1, 10⟩] : List Wallet), 0 ≤ w.balance) ∧
    (⟨[⟨1, 10⟩], [], 0⟩ : State).txs = [] ∧
    (qVal (applyOps ⟨[⟨1, 10⟩], [], 0⟩
        [Op.reserveOp 1 3 none none "n" 0, Op.reserveOp 1 2 none none "n" 0,
         Op.commitOp 0, Op.reverseOp 1 "r" 1, Op.topUpOp 1 5 "t" 2,
         Op.reserveOp 1 4 (some "k") none "n" 3, Op.sweepOp 400 300 500]) 1 =
      qVal ⟨[⟨1, 10⟩], [], 0⟩ 1 ∧
     qVal ⟨[⟨1, 10⟩], [], 0⟩ 1 = walletSum [⟨1, 10⟩] 1) :=
  ⟨by decide, by decide, rfl,
   conservation_amended ⟨[⟨1, 10⟩], [], 0⟩
     [Op.reserveOp 1 3 none none "n" 0, Op.reserveOp 1 2 none none "n" 0,
      Op.commitOp 0, Op.reverseOp 1 "r" 1, Op.topUpOp 1 5 "t" 2,
      Op.reserveOp 1 4 (some "k") none "n" 3, Op.sweepOp 400 300 500] 1
     (by decide) (by decide) rfl⟩

/-! ### The sweeper reverses exactly the stale PENDING rows -/

/-- The reversal the sweeper applies to a stale row: status REVERSED, note
`"expired"`. -/
def markExpired (t : CreditTransaction) : CreditTransaction :=
  { t with txStatus := TxStatus.reversed, note := "expired" }

theorem sortById_eq_self {l : List CreditTransaction}
    (h : TxIdsOrdered l) : sortById l = l := by
  induction l with
  | nil => rfl
  | cons x xs ih =>
    rcases List.pairwise_cons.mp h with ⟨hx, hxs⟩
    show insertById x (sortById xs) = x :: xs
    rw [ih hxs]
    cases xs with
    | nil => rfl
    | cons y ys =>
      show (if x.id ≤ y.id then x :: y :: ys else y :: insertById x ys) =
        x :: y :: ys
      rw [if_pos (Nat.le_of_lt (hx y (List.mem_cons_self y ys)))]

theorem filter_of_all_true {α : Type} {l : List α} {p : α → Bool}
    (h : ∀ a ∈ l, p a = true) : l.filter p = l := by
  induction l with
  | nil => rfl
  | cons x xs ih =>
    rw [List.filter_cons, if_pos (h x (List.mem_cons_self x xs))]
    rw [ih (fun a ha => h a (List.mem_cons_of_mem x ha))]

theorem filter_and_split {α : Type} {l : List α} {p q : α → Bool} :
    l.filter (fun a => p a && q a) = (l.filter p).filter q := by
  induction l with
  | nil => rfl
  | cons x xs ih =>
    cases hp : p x with
    | false => simp [List.filter_cons, hp, ih]
    | true =>
      cases hq : q x with
      | false => simp [List.filter_cons, hp, hq, ih]
      | true => simp [List.filter_cons, hp, hq, ih]

theorem filter_not_mem_take {l : List CreditTransaction}
    (hnd : (l.map CreditTransaction.id).Nodup) (n : Nat) :
    l.filter (fun u =>
      decide (u.id ∉ (l.take n).map CreditTransaction.id)) = l.drop n := by
  induction l generalizing n with
  | nil => rw [List.drop_nil, List.filter_nil]
  | cons x xs ih =>
    have hx : x.id ∉ xs.map CreditTransaction.id :=
      (List.nodup_cons.mp
        (show (x.id :: xs.map CreditTransaction.id).Nodup from hnd)).1
    have hxs : (xs.map CreditTransaction.id).Nodup :=
      (List.nodup_cons.mp
        (show (x.id :: xs.map CreditTransaction.id).Nodup from hnd)).2
    cases n with
    | zero =>
      show (x :: xs).filter (fun u =>
        decide (u.id ∉ ([] : List CreditTransaction).map
          CreditTransaction.id)) = x :: xs
      exact filter_of_all_true (fun a ha =>
        decide_eq_true (List.not_mem_nil a.id))
    | succ n =>
      show (x :: xs).filter (fun u =>
        decide (u.id ∉ (x :: xs.take n).map CreditTransaction.id)) =
        xs.drop n
      rw [List.filter_cons]
      rw [if_neg (by
        simp only [decide_eq_true_eq, List.map_cons]
        intro hc
        exact hc (List.mem_cons_self x.id _))]
      have hcongr : ∀ u ∈ xs,
          (decide (u.id ∉ (x :: xs.take n).map CreditTransaction.id)) =
          (decide (u.id ∉ (xs.take n).map CreditTransaction.id)) := by
        intro u hu
        have hne : u.id ≠ x.id := by
          intro hc
          exact hx (hc ▸ List.mem_map_of_mem CreditTransaction.id hu)
        rw [decide_eq_decide]
        rw [List.map_cons]
        constructor
        · intro hnot hmem
          exact hnot (List.mem_cons_of_mem x.id hmem)
        · intro hnot hmem
          rcases List.mem_cons.mp hmem with hc | hc
          · exact hne hc
          · exact hnot hc
      rw [filter_congr_mem hcongr, ih hxs n]

theorem upd_expired_id {txId : Nat} (u : CreditTransaction) :
    ((fun t => if t.id = txId then
      ({ t with txStatus := TxStatus.reversed, note := "expired" } :
        CreditTransaction) else t) u).id = u.id := by
  show (if u.id = txId then
    ({ u with txStatus := TxStatus.reversed, note := "expired" } :
      CreditTransaction) else u).id = u.id
  by_cases hc : u.id = txId
  · rw [if_pos hc]
  · rw [if_neg hc]

theorem staleP_markExpired (cutoff : Int) (u : CreditTransaction) :
    staleP cutoff (markExpired u) = false := by
  apply decide_eq_false
  intro hc
  cases hc.1

theorem staleP_pending {cutoff : Int} {u : CreditTransaction}
    (h : staleP cutoff u = true) : u.txStatus = TxStatus.pending :=
  (of_decide_eq_true h).1

theorem reverse_pending_eq {s : State} {t : CreditTransaction}
    (hord : TxIdsOrdered s.txs) (ht : t ∈ s.txs)
    (hp : t.txStatus = TxStatus.pending) (reason : String) (now : Int) :
    reverse_reservation s t.id reason now = Except.ok
      ({ t with txStatus := TxStatus.reversed, note := reason },
       { s with txs := s.txs.map (fun u => if u.id = t.id then { u with txStatus := TxStatus.reversed, note := reason } else u) ++ [refundRow t reason s.nextId now], wallets := s.wallets.map (fun u => if u.id = t.walletId then { u with balance := u.balance + (-t.delta) } else u), nextId := s.nextId + 1 }) := by
  have hfind := find?_id_of_ordered hord ht
  simp [reverse_reservation, hfind, hp]

theorem reverseBatch_spec {now cutoff : Int} :
    ∀ (batch : List CreditTransaction) (s : State),
      TxIdsOrdered s.txs → (∀ u ∈ s.txs, u.id < s.nextId) →
      (∀ t ∈ batch, t ∈ s.txs ∧ staleP cutoff t = true) →
      (batch.map CreditTransaction.id).Nodup →
      TxIdsOrdered (reverseBatch now s batch).txs ∧
      (∀ u ∈ (reverseBatch now s batch).txs,
        u.id < (reverseBatch now s batch).nextId) ∧
      (∀ u ∈ s.txs, u.id ∉ batch.map CreditTransaction.id →
        u ∈ (reverseBatch now s batch).txs) ∧
      (∀ t ∈ batch, markExpired t ∈ (reverseBatch now s batch).txs) ∧
      ((reverseBatch now s batch).txs.filter (staleP cutoff) =
        s.txs.filter (fun u => staleP cutoff u &&
          decide (u.id ∉ batch.map CreditTransaction.id))) := by
  intro batch
  induction batch with
  | nil =>
    intro s hord hbound hbatch hnd
    refine ⟨hord, hbound, fun u hu _ => hu, fun t ht => absurd ht
      (List.not_mem_nil t), ?_⟩
    refine (filter_congr_mem (fun u hu => ?_)).symm
    have : decide (u.id ∉ ([] : List CreditTransaction).map
        CreditTransaction.id) = true :=
      decide_eq_true (List.not_mem_nil u.id)
    rw [this, Bool.and_true]
  | cons t rest ih =>
    intro s hord hbound hbatch hnd
    obtain ⟨htmem, htstale⟩ := hbatch t (List.mem_cons_self t rest)
    have hndt : t.id ∉ rest.map CreditTransaction.id :=
      (List.nodup_cons.mp
        (show (t.id :: rest.map CreditTransaction.id).Nodup from hnd)).1
    have hndrest : (rest.map CreditTransaction.id).Nodup :=
      (List.nodup_cons.mp
        (show (t.id :: rest.map CreditTransaction.id).Nodup from hnd)).2
    have hpend := staleP_pending htstale
    have hs1 : reverseOne now s t.id = { s with txs := s.txs.map (fun u => if u.id = t.id then { u with txStatus := TxStatus.reversed, note := "expired" } else u) ++ [refundRow t "expired" s.nextId now], wallets := s.wallets.map (fun u => if u.id = t.walletId then { u with balance := u.balance + (-t.delta) } else u), nextId := s.nextId + 1 } := by
      unfold reverseOne
      rw [reverse_pending_eq hord htmem hpend "expired" now]
    have hrb : reverseBatch now s (t :: rest) =
        reverseBatch now (reverseOne now s t.id) rest := rfl
    rw [hrb, hs1]
    set s1 : State := { s with txs := s.txs.map (fun u => if u.id = t.id then { u with txStatus := TxStatus.reversed, note := "expired" } else u) ++ [refundRow t "expired" s.nextId now], wallets := s.wallets.map (fun u => if u.id = t.walletId then { u with balance := u.balance + (-t.delta) } else u), nextId := s.nextId + 1 } with hs1def
    have htxs1 : s1.txs = s.txs.map (fun u => if u.id = t.id then
        { u with txStatus := TxStatus.reversed, note := "expired" }
        else u) ++ [refundRow t "expired" s.nextId now] := rfl
    have hnext1 : s1.nextId = s.nextId + 1 := rfl
    have hord1 : TxIdsOrdered s1.txs := by
      rw [htxs1]
      refine List.pairwise_append.mpr ⟨?_, List.pairwise_singleton _ _, ?_⟩
      · refine List.pairwise_map.mpr (hord.imp ?_)
        intro a b hab
        rw [upd_expired_id a, upd_expired_id b]
        exact hab
      · intro a ha b hb
        rcases List.mem_map.mp ha with ⟨u, hu, hfu⟩
        have hb2 : b = refundRow t "expired" s.nextId now := by simpa using hb
        have ha2 : a.id = u.id := by rw [← hfu]; exact upd_expired_id u
        rw [ha2, hb2]
        show u.id < s.nextId
        exact hbound u hu
    have hbound1 : ∀ u ∈ s1.txs, u.id < s1.nextId := by
      intro u hu
      rw [hnext1]
      have hu2 : u ∈ s.txs.map (fun u => if u.id = t.id then
          { u with txStatus := TxStatus.reversed, note := "expired" }
          else u) ++ [refundRow t "expired" s.nextId now] := hu
      rcases List.mem_append.mp hu2 with hua | hub
      · rcases List.mem_map.mp hua with ⟨v, hv, hfv⟩
        have : u.id = v.id := by rw [← hfv]; exact upd_expired_id v
        rw [this]
        exact Nat.lt_succ_of_lt (hbound v hv)
      · have : u = refundRow t "expired" s.nextId now := by simpa using hub
        rw [this]
        exact Nat.lt_succ_self s.nextId
    have hmem_upd : ∀ u ∈ s.txs, u.id ≠ t.id → u ∈ s1.txs := by
      intro u hu hne
      rw [htxs1]
      refine List.mem_append_left _ ?_
      refine mem_map_self hu ?_
      show (if u.id = t.id then
        ({ u with txStatus := TxStatus.reversed, note := "expired" } :
          CreditTransaction) else u) = u
      exact if_neg hne
    have hrest : ∀ r ∈ rest, r ∈ s1.txs ∧ staleP cutoff r = true := by
      intro r hr
      obtain ⟨hrmem, hrstale⟩ := hbatch r (List.mem_cons_of_mem t hr)
      have hne : r.id ≠ t.id := by
        intro hc
        exact hndt (hc ▸ List.mem_map_of_mem CreditTransaction.id hr)
      exact ⟨hmem_upd r hrmem hne, hrstale⟩
    obtain ⟨ihord, ihbound, ihpres, ihmark, ihfilter⟩ :=
      ih s1 hord1 hbound1 hrest hndrest
    refine ⟨ihord, ihbound, ?_, ?_, ?_⟩
    · intro u hu hnotin
      have hne : u.id ≠ t.id := by
        intro hc
        refine hnotin ?_
        rw [List.map_cons, hc]
        exact List.mem_cons_self _ _
      have hnr : u.id ∉ rest.map CreditTransaction.id := by
        intro hc
        refine hnotin ?_
        rw [List.map_cons]
        exact List.mem_cons_of_mem _ hc
      exact ihpres u (hmem_upd u hu hne) hnr
    · intro r hr
      rcases List.mem_cons.mp hr with hrt | hrr
      · subst hrt
        have hmem1 : markExpired r ∈ s1.txs := by
          rw [htxs1]
          refine List.mem_append_left _ ?_
          have : markExpired r = (fun u => if u.id = r.id then
              ({ u with txStatus := TxStatus.reversed, note := "expired" } :
                CreditTransaction) else u) r := by
            show markExpired r = (if r.id = r.id then
              ({ r with txStatus := TxStatus.reversed, note := "expired" } :
                CreditTransaction) else r)
            rw [if_pos rfl]
            rfl
          rw [this]
          exact List.mem_map_of_mem _ htmem
        refine ihpres (markExpired r) hmem1 ?_
        show r.id ∉ rest.map CreditTransaction.id
        exact hndt
      · exact ihmark r hrr
    · rw [ihfilter, htxs1, List.filter_append]
      have hpr : (staleP cutoff (refundRow t "expired" s.nextId now) &&
          decide ((refundRow t "expired" s.nextId now).id ∉
            rest.map CreditTransaction.id)) = false := by
        rw [show staleP cutoff (refundRow t "expired" s.nextId now) = false
          from decide_eq_false (fun hc => by cases hc.1)]
        exact Bool.false_and _
      have hsing : List.filter (fun u => staleP cutoff u &&
          decide (u.id ∉ rest.map CreditTransaction.id))
          [refundRow t "expired" s.nextId now] = [] := by
        rw [List.filter_cons, if_neg (by rw [hpr]; exact Bool.false_ne_true),
          List.filter_nil]
      rw [hsing, List.append_nil]
      refine filter_map_pointwise (fun u hu => ?_)
      by_cases hc : u.id = t.id
      · have h1 : staleP cutoff ({ u with txStatus := TxStatus.reversed, note := "expired" } : CreditTransaction) = false :=
          decide_eq_false (fun hcc => by cases hcc.1)
        have h2 : decide (u.id ∉ (t :: rest).map CreditTransaction.id) =
            false :=
          decide_eq_false (fun hn => hn (by
            rw [List.map_cons, hc]
            exact List.mem_cons_self _ _))
        constructor
        · show (staleP cutoff (if u.id = t.id then ({ u with txStatus := TxStatus.reversed, note := "expired" } : CreditTransaction) else u) && decide ((if u.id = t.id then ({ u with txStatus := TxStatus.reversed, note := "expired" } : CreditTransaction) else u).id ∉ rest.map CreditTransaction.id)) = (staleP cutoff u && decide (u.id ∉ (t :: rest).map CreditTransaction.id))
          rw [if_pos hc, h1, Bool.false_and, h2, Bool.and_false]
        · intro hq
          exfalso
          rw [h2, Bool.and_false] at hq
          exact Bool.false_ne_true hq
      · constructor
        · show (staleP cutoff (if u.id = t.id then ({ u with txStatus := TxStatus.reversed, note := "expired" } : CreditTransaction) else u) && decide ((if u.id = t.id then ({ u with txStatus := TxStatus.reversed, note := "expired" } : CreditTransaction) else u).id ∉ rest.map CreditTransaction.id)) = (staleP cutoff u && decide (u.id ∉ (t :: rest).map CreditTransaction.id))
          rw [if_neg hc]
          have heq2 : decide (u.id ∉ rest.map CreditTransaction.id) =
              decide (u.id ∉ (t :: rest).map CreditTransaction.id) := by
            rw [decide_eq_decide, List.map_cons]
            constructor
            · intro hnot hmem
              rcases List.mem_cons.mp hmem with hm | hm
              · exact hc hm
              · exact hnot hm
            · intro hnot hmem
              exact hnot (List.mem_cons_of_mem _ hmem)
          rw [heq2]
        · intro _
          show (if u.id = t.id then ({ u with txStatus := TxStatus.reversed, note := "expired" } : CreditTransaction) else u) = u
          exact if_neg hc

theorem sweepLoop_spec {now cutoff : Int} {chunk : Nat}
    (hchunk : 0 < chunk) :
    ∀ (fuel : Nat) (s : State) (total : Nat),
      TxIdsOrdered s.txs → (∀ u ∈ s.txs, u.id < s.nextId) →
      (s.txs.filter (staleP cutoff)).length ≤ fuel →
      ((sweepLoop now cutoff chunk fuel s total).2 =
        total + (s.txs.filter (staleP cutoff)).length) ∧
      (∀ u ∈ s.txs, staleP cutoff u = false →
        u ∈ (sweepLoop now cutoff chunk fuel s total).1.txs) ∧
      (∀ u ∈ s.txs, staleP cutoff u = true →
        markExpired u ∈ (sweepLoop now cutoff chunk fuel s total).1.txs) := by
  intro fuel
  induction fuel with
  | zero =>
    intro s total hord hbound hfuel
    have hnil : s.txs.filter (staleP cutoff) = [] :=
      List.length_eq_zero.mp (Nat.le_zero.mp hfuel)
    refine ⟨?_, fun u hu _ => hu, ?_⟩
    · show total = total + (s.txs.filter (staleP cutoff)).length
      rw [hnil]
      rfl
    · intro u hu hustale
      exfalso
      have : u ∈ s.txs.filter (staleP cutoff) :=
        List.mem_filter.mpr ⟨hu, hustale⟩
      rw [hnil] at this
      cases this
  | succ fuel ih =>
    intro s total hord hbound hfuel
    have hlpw : TxIdsOrdered (s.txs.filter (staleP cutoff)) :=
      List.Pairwise.sublist (List.filter_sublist _) hord
    have hbatch_eq : staleBatch s cutoff chunk =
        (s.txs.filter (staleP cutoff)).take chunk := by
      unfold staleBatch
      rw [sortById_eq_self hlpw]
    by_cases hb : (staleBatch s cutoff chunk).isEmpty
    · have hempty : s.txs.filter (staleP cutoff) = [] := by
        rw [hbatch_eq] at hb
        have htake := List.isEmpty_iff.mp hb
        cases hl : s.txs.filter (staleP cutoff) with
        | nil => rfl
        | cons x xs =>
          exfalso
          rw [hl] at htake
          cases chunk with
          | zero => omega
          | succ c =>
            rw [List.take_succ_cons] at htake
            cases htake
      have hstep : sweepLoop now cutoff chunk (fuel + 1) s total =
          (s, total) := by
        simp only [sweepLoop, hb, if_true]
      rw [hstep]
      refine ⟨?_, fun u hu _ => hu, ?_⟩
      · show total = total + (s.txs.filter (staleP cutoff)).length
        rw [hempty]
        rfl
      · intro u hu hustale
        exfalso
        have : u ∈ s.txs.filter (staleP cutoff) :=
          List.mem_filter.mpr ⟨hu, hustale⟩
        rw [hempty] at this
        cases this
    · have hne : ¬ (staleBatch s cutoff chunk) = [] := by
        intro hcc
        rw [hcc] at hb
        exact hb rfl
      have hstep : sweepLoop now cutoff chunk (fuel + 1) s total =
          sweepLoop now cutoff chunk fuel
            (reverseBatch now s (staleBatch s cutoff chunk))
            (total + (staleBatch s cutoff chunk).length) := by
        simp only [sweepLoop, hb, if_false]
        rfl
      have hsubfilter : List.Sublist (staleBatch s cutoff chunk)
          (s.txs.filter (staleP cutoff)) := by
        rw [hbatch_eq]
        exact List.take_sublist _ _
      have hsubtxs : ∀ b ∈ staleBatch s cutoff chunk,
          b ∈ s.txs ∧ staleP cutoff b = true := by
        intro b hbmem
        have hbf : b ∈ s.txs.filter (staleP cutoff) :=
          hsubfilter.subset hbmem
        exact ⟨(List.mem_filter.mp hbf).1, (List.mem_filter.mp hbf).2⟩
      have hbatchord : TxIdsOrdered (staleBatch s cutoff chunk) :=
        List.Pairwise.sublist hsubfilter hlpw
      have hbatchnd := txIds_nodup_of_ordered hbatchord
      obtain ⟨rbord, rbbound, rbpres, rbmark, rbfilter⟩ :=
        @reverseBatch_spec now cutoff
          (staleBatch s cutoff chunk) s hord hbound hsubtxs hbatchnd
      have hfilter1 : (reverseBatch now s
          (staleBatch s cutoff chunk)).txs.filter (staleP cutoff) =
          (s.txs.filter (staleP cutoff)).drop chunk := by
        rw [rbfilter, filter_and_split, hbatch_eq]
        exact filter_not_mem_take (txIds_nodup_of_ordered hlpw) chunk
      have hlen0 : 0 < (s.txs.filter (staleP cutoff)).length := by
        cases hl : s.txs.filter (staleP cutoff) with
        | nil =>
          exfalso
          apply hne
          rw [hbatch_eq, hl, List.take_nil]
        | cons x xs => simp
      have hlen1 : ((reverseBatch now s
          (staleBatch s cutoff chunk)).txs.filter
            (staleP cutoff)).length ≤ fuel := by
        rw [hfilter1, List.length_drop]
        omega
      obtain ⟨ih1, ih2, ih3⟩ := ih
        (reverseBatch now s (staleBatch s cutoff chunk))
        (total + (staleBatch s cutoff chunk).length) rbord rbbound hlen1
      have hbl : (staleBatch s cutoff chunk).length =
          min chunk (s.txs.filter (staleP cutoff)).length := by
        rw [hbatch_eq, List.length_take]
      refine ⟨?_, ?_, ?_⟩
      · rw [hstep, ih1, hfilter1, List.length_drop, hbl]
        omega
      · intro u hu hustale
        have hnotin : u.id ∉
            (staleBatch s cutoff chunk).map CreditTransaction.id := by
          intro hcin
          rcases List.mem_map.mp hcin with ⟨b, hbm, hbid⟩
          have hbs := hsubtxs b hbm
          have hbu : b = u := eq_of_mem_of_id_eq hord hbs.1 hu hbid
          rw [hbu] at hbs
          rw [hbs.2] at hustale
          cases hustale
        rw [hstep]
        exact ih2 u (rbpres u hu hnotin) hustale
      · intro u hu hustale
        rw [hstep]
        by_cases hcin : u.id ∈
            (staleBatch s cutoff chunk).map CreditTransaction.id
        · rcases List.mem_map.mp hcin with ⟨b, hbm, hbid⟩
          have hbs := hsubtxs b hbm
          have hbu : b = u := eq_of_mem_of_id_eq hord hbs.1 hu hbid
          have humem : u ∈ staleBatch s cutoff chunk := hbu ▸ hbm
          exact ih2 (markExpired u) (rbmark u humem)
            (staleP_markExpired cutoff u)
        · exact ih3 u (rbpres u hu hcin) hustale

/-- Claim C8: with a positive chunk size, `sweep(now)` reverses exactly the
PENDING rows whose `created_at` is strictly below `cutoff = now − ttl`
(marking them REVERSED with note `"expired"`), returns the number of rows it
reversed, leaves every other row untouched, and in particular a PENDING row
with `created_at = cutoff` is never swept and stays PENDING. -/
theorem sweep_reverses_exactly_stale (s : State) (now ttl : Int)
    (chunk : Nat) (hord : TxIdsOrdered s.txs)
    (hbound : ∀ u ∈ s.txs, u.id < s.nextId) (hchunk : 0 < chunk) :
    ((sweep_stale_reservations s now ttl chunk).2 =
      (s.txs.filter (staleP (now - ttl))).length) ∧
    (∀ u ∈ s.txs, staleP (now - ttl) u = true →
      markExpired u ∈ (sweep_stale_reservations s now ttl chunk).1.txs) ∧
    (∀ u ∈ s.txs, staleP (now - ttl) u = false →
      u ∈ (sweep_stale_reservations s now ttl chunk).1.txs) ∧
    (∀ u ∈ s.txs, u.txStatus = TxStatus.pending →
      u.createdAt = now - ttl →
      u ∈ (sweep_stale_reservations s now ttl chunk).1.txs) := by
  have hfuel : (s.txs.filter (staleP (now - ttl))).length ≤
      s.txs.length + 1 :=
    Nat.le_succ_of_le (List.length_filter_le _ _)
  obtain ⟨h1, h2, h3⟩ := @sweepLoop_spec now (now - ttl) chunk
    hchunk (s.txs.length + 1) s 0 hord hbound hfuel
  refine ⟨?_, h3, h2, ?_⟩
  · rw [show (sweep_stale_reservations s now ttl chunk).2 =
      (sweepLoop now (now - ttl) chunk (s.txs.length + 1) s 0).2 from rfl,
      h1]
    exact Nat.zero_add _
  · intro u hu hpend hcreated
    refine h2 u hu ?_
    apply decide_eq_false
    intro hc
    rw [hcreated] at hc
    exact lt_irrefl _ hc.2

/-- Witness for C8: two PENDING debits, one created strictly before the
cutoff and one exactly at it; the sweep reverses only the first and reports
one reversal. -/
theorem sweep_reverses_exactly_stale_witness :
    (0 < 500 ∧
     ((sweep_stale_reservations ⟨[⟨1, 5⟩], [⟨0, 1, -3, TxType.debit, TxStatus.pending, none, none, "a", 0⟩, ⟨1, 1, -2, TxType.debit, TxStatus.pending, none, none, "b", 10⟩], 2⟩ 310 300 500).2 = (([⟨0, 1, -3, TxType.debit, TxStatus.pending, none, none, "a", 0⟩, ⟨1, 1, -2, TxType.debit, TxStatus.pending, none, none, "b", 10⟩] : List CreditTransaction).filter (staleP (310 - 300))).length) ∧
     (∀ u ∈ ([⟨0, 1, -3, TxType.debit, TxStatus.pending, none, none, "a", 0⟩, ⟨1, 1, -2, TxType.debit, TxStatus.pending, none, none, "b", 10⟩] : List CreditTransaction), u.txStatus = TxStatus.pending → u.createdAt = 310 - 300 → u ∈ (sweep_stale_reservations ⟨[⟨1, 5⟩], [⟨0, 1, -3, TxType.debit, TxStatus.pending, none, none, "a", 0⟩, ⟨1, 1, -2, TxType.debit, TxStatus.pending, none, none, "b", 10⟩], 2⟩ 310 300 500).1.txs)) :=
  ⟨by decide,
   (sweep_reverses_exactly_stale
     ⟨[⟨1, 5⟩], [⟨0, 1, -3, TxType.debit, TxStatus.pending, none, none, "a", 0⟩, ⟨1, 1, -2, TxType.debit, TxStatus.pending, none, none, "b", 10⟩], 2⟩
     310 300 500 (by decide) (by decide) (by decide)).1,
   (sweep_reverses_exactly_stale
     ⟨[⟨1, 5⟩], [⟨0, 1, -3, TxType.debit, TxStatus.pending, none, none, "a", 0⟩, ⟨1, 1, -2, TxType.debit, TxStatus.pending, none, none, "b", 10⟩], 2⟩
     310 300 500 (by decide) (by decide) (by decide)).2.2.2⟩

end CreditSystem